import Mathlib

/-!
In-memory prefix storage of go-ipam (`memory.go`).

A shallow embedding of the in-memory `Storage` backend: the Go map
`map[string]Prefix` becomes an association list, every method becomes a
function from the store before the call to the store after the call together
with the Go result pair `(value, error)`.  The reader/writer lock is left out:
the development is about sequential executions of the methods.

The Go parameters called `prefix` and `namespace` are written `pfx` and `ns`.
Strings are compared character by character; the separator `@` is a single
byte that never occurs inside a multi-byte character, so on well-formed text
this agrees with Go's byte-wise comparison.
-/

namespace Ipam

/-! ## Records, errors, contexts -/

/-- Modelled from the spec: the `Prefix` record type is declared outside
`memory.go` and `postgres.go`.  It carries the two identity fields `Cidr` and
`Namespace`, the `version` counter used for optimistic locking (an unsigned
integer; the spec states no width, it is taken as a natural number) and the
caller-owned allocation state, which the storage copies and never inspects. -/
structure Prefix where
  Cidr : String
  Namespace : String
  version : Nat
  payload : List Nat
  deriving DecidableEq, Repr

/-- The zero value `Prefix{}` that the methods return next to an error. -/
def Prefix.zero : Prefix :=
  { Cidr := "", Namespace := "", version := 0, payload := [] }

/-- Modelled from the spec: `deepCopy` is declared outside `memory.go`; every
read returns a deep copy and every write stores a deep copy.  With values in
place of pointers the copy is the record rebuilt field by field. -/
def Prefix.deepCopy (p : Prefix) : Prefix :=
  { Cidr := p.Cidr, Namespace := p.Namespace, version := p.version, payload := p.payload }

/-- Modelled from the spec: the error values a caller recognises with
`errors.Is`.  `ErrOptimisticLockError` is the sentinel of this package; it is
declared outside `memory.go` and is the only one `memory.go` refers to.
`Canceled` and `DeadlineExceeded` are `context.Canceled` and
`context.DeadlineExceeded`, the errors that a canceled or an expired context
reports; they are the cancellation errors. -/
inductive SentinelError where
  | ErrOptimisticLockError
  | Canceled
  | DeadlineExceeded
  deriving DecidableEq, Repr

/-- An operand of `fmt.Errorf`: a string under `%s`, a record under `%v`, or an
error under `%w`. -/
inductive FmtArg where
  | s (str : String)
  | v (p : Prefix)
  | w (e : SentinelError)
  deriving DecidableEq, Repr

/-- An error value built by `fmt.Errorf`: the format string, its operands, and
the error it wraps (what `Unwrap` returns), if any. -/
structure GoError where
  format : String
  args : List FmtArg
  wrapped : Option SentinelError
  deriving DecidableEq, Repr

/-- The call `fmt.Errorf(format, args...)`: the result wraps the operand of the
`%w` verb when there is one. -/
def Errorf (format : String) (args : List FmtArg) : GoError :=
  { format := format
    args := args
    wrapped := args.findSome? (fun a => match a with
      | FmtArg.w e => some e
      | _ => none) }

/-- The test `errors.Is(err, target)` for a sentinel target. -/
def errorsIs (err : GoError) (target : SentinelError) : Bool :=
  decide (err.wrapped = some target)

/-- The error is a cancellation error: `errors.Is` recognises
`context.Canceled` or `context.DeadlineExceeded` in it. -/
def isCancellation (err : GoError) : Bool :=
  errorsIs err SentinelError.Canceled || errorsIs err SentinelError.DeadlineExceeded

/-- Modelled from the spec: the `context.Context` each method receives; it is
either live or already canceled or expired. -/
structure Context where
  canceled : Bool
  deriving DecidableEq, Repr

/-- A context that is not canceled, `context.Background()`. -/
def Context.background : Context := { canceled := false }

/-! ## Go strings and maps -/

/-- Go's `strings.HasSuffix(s, suffix)`:
`len(s) >= len(suffix) && s[len(s)-len(suffix):] == suffix`. -/
def HasSuffix (s suffix : String) : Bool :=
  decide (s.data.length ≥ suffix.data.length) &&
    decide (s.data.drop (s.data.length - suffix.data.length) = suffix.data)

/-- Go's `strings.TrimSuffix(s, suffix)`: `s` without the trailing `suffix`
when it has it, and `s` itself otherwise. -/
def TrimSuffix (s suffix : String) : String :=
  if HasSuffix s suffix then String.mk (s.data.take (s.data.length - suffix.data.length)) else s

/-- A Go `map[string]Prefix`, kept as an association list.  Iterating the map
(`range`) visits the entries in list order; Go leaves that order unspecified. -/
abbrev PrefixMap := List (String × Prefix)

/-- The lookup `v, ok := m[key]`: `some v` when `ok`, `none` otherwise. -/
def mapGet : PrefixMap → String → Option Prefix
  | [], _ => none
  | (k, v) :: rest, key => if k = key then some v else mapGet rest key

/-- The statement `delete(m, key)`. -/
def mapDelete (m : PrefixMap) (key : String) : PrefixMap :=
  m.filter (fun e => decide (e.1 ≠ key))

/-- The assignment `m[key] = v`: any earlier entry for `key` is replaced. -/
def mapSet (m : PrefixMap) (key : String) (v : Prefix) : PrefixMap :=
  (key, v) :: mapDelete m key

/-! ## The store and its methods -/

/-- The struct `memory` without its lock. -/
structure memory where
  prefixes : PrefixMap
  deriving DecidableEq, Repr

/-- What a method leaves behind: the store after the call, the value it
returns and the error it returns (`none` for `nil`). -/
structure Ret (α : Type) where
  m : memory
  val : α
  err : Option GoError

/-- `NewMemory`: a store with an empty map. -/
def NewMemory : memory := { prefixes := [] }

/-- `memory.CreatePrefix`. -/
def CreatePrefix (m : memory) (_ : Context) (pfx : Prefix) : Ret Prefix :=
  let key := pfx.Cidr ++ "@" ++ pfx.Namespace
  match mapGet m.prefixes key with
  | some _ => ⟨m, Prefix.zero, some (Errorf "prefix already created:%v" [FmtArg.v pfx])⟩
  | none => ⟨{ prefixes := mapSet m.prefixes key pfx.deepCopy }, pfx, none⟩

/-- `memory.ReadPrefix`. -/
def ReadPrefix (m : memory) (_ : Context) (pfx ns : String) : Ret Prefix :=
  let key := pfx ++ "@" ++ ns
  match mapGet m.prefixes key with
  | none => ⟨m, Prefix.zero, some (Errorf "prefix %s not found" [FmtArg.s pfx])⟩
  | some result => ⟨m, result.deepCopy, none⟩

/-- `memory.ReadPrefixes`: the loop over the map appends a copy of every value
whose key ends in `"@"+namespace`. -/
def ReadPrefixes (m : memory) (_ : Context) (ns : String) : Ret (List Prefix) :=
  let ps := m.prefixes.foldl
    (fun ps kv => if HasSuffix kv.1 ("@" ++ ns) then ps ++ [kv.2.deepCopy] else ps) []
  ⟨m, ps, none⟩

/-- `memory.DeleteAllPrefixes`: the map is replaced by a fresh empty one. -/
def DeleteAllPrefixes (_ : memory) (_ : Context) : Ret Unit :=
  ⟨{ prefixes := [] }, (), none⟩

/-- `memory.ReadAllPrefixes`. -/
def ReadAllPrefixes (m : memory) (_ : Context) : Ret (List Prefix) :=
  let ps := m.prefixes.foldl (fun ps kv => ps ++ [kv.2.deepCopy]) []
  ⟨m, ps, none⟩

/-- `memory.ReadAllPrefixCidrs`: the loop over the keys appends every key that
ends in `"@"+namespace`, with that suffix trimmed. -/
def ReadAllPrefixCidrs (m : memory) (_ : Context) (ns : String) : Ret (List String) :=
  let ps := m.prefixes.foldl
    (fun ps kv => if HasSuffix kv.1 ("@" ++ ns) then ps ++ [TrimSuffix kv.1 ("@" ++ ns)] else ps) []
  ⟨m, ps, none⟩

/-- `memory.UpdatePrefix`.  The version of the local copy is incremented before
any check; the map is looked up twice, as in the source. -/
def UpdatePrefix (m : memory) (_ : Context) (pfx : Prefix) : Ret Prefix :=
  let oldVersion := pfx.version
  let pfx : Prefix := { pfx with version := oldVersion + 1 }
  if pfx.Cidr = "" then
    ⟨m, Prefix.zero, some (Errorf "prefix not present:%v" [FmtArg.v pfx])⟩
  else
    let key := pfx.Cidr ++ "@" ++ pfx.Namespace
    match mapGet m.prefixes key with
    | none => ⟨m, Prefix.zero, some (Errorf "prefix not found:%s" [FmtArg.s pfx.Cidr])⟩
    | some _ =>
      match mapGet m.prefixes key with
      | none => ⟨m, Prefix.zero, some (Errorf "prefix not found:%s" [FmtArg.s pfx.Cidr])⟩
      | some oldPrefix =>
        if oldPrefix.version ≠ oldVersion then
          ⟨m, Prefix.zero,
            some (Errorf "%w: unable to update prefix:%s"
              [FmtArg.w SentinelError.ErrOptimisticLockError, FmtArg.s pfx.Cidr])⟩
        else
          ⟨{ prefixes := mapSet m.prefixes key pfx.deepCopy }, pfx, none⟩

/-- `memory.DeletePrefix`. -/
def DeletePrefix (m : memory) (_ : Context) (pfx : Prefix) : Ret Prefix :=
  let key := pfx.Cidr ++ "@" ++ pfx.Namespace
  ⟨{ prefixes := mapDelete m.prefixes key }, pfx.deepCopy, none⟩

/-! ## Calls, reachable stores, stored records -/

/-- A call of one of the public methods of the store, with its arguments. -/
inductive Op where
  | create (c : Context) (p : Prefix)
  | read (c : Context) (cidr ns : String)
  | readPrefixes (c : Context) (ns : String)
  | deleteAll (c : Context)
  | readAll (c : Context)
  | readAllCidrs (c : Context) (ns : String)
  | update (c : Context) (p : Prefix)
  | delete (c : Context) (p : Prefix)
  deriving DecidableEq, Repr

/-- The store a call leaves and the error it returns. -/
def applyOp (m : memory) : Op → memory × Option GoError
  | Op.create c p => ((CreatePrefix m c p).m, (CreatePrefix m c p).err)
  | Op.read c cidr ns => ((ReadPrefix m c cidr ns).m, (ReadPrefix m c cidr ns).err)
  | Op.readPrefixes c ns => ((ReadPrefixes m c ns).m, (ReadPrefixes m c ns).err)
  | Op.deleteAll c => ((DeleteAllPrefixes m c).m, (DeleteAllPrefixes m c).err)
  | Op.readAll c => ((ReadAllPrefixes m c).m, (ReadAllPrefixes m c).err)
  | Op.readAllCidrs c ns => ((ReadAllPrefixCidrs m c ns).m, (ReadAllPrefixCidrs m c ns).err)
  | Op.update c p => ((UpdatePrefix m c p).m, (UpdatePrefix m c p).err)
  | Op.delete c p => ((DeletePrefix m c p).m, (DeletePrefix m c p).err)

/-- The stores that `NewMemory` followed by any sequence of calls of the
public methods can produce. -/
inductive Reachable : memory → Prop where
  | init : Reachable NewMemory
  | step (m : memory) (op : Op) : Reachable m → Reachable (applyOp m op).1

/-- The records the store holds: the values of its map. -/
def storedRecords (m : memory) : List Prefix :=
  m.prefixes.map Prod.snd

/-- Every entry of the map sits under the key built from its own fields. -/
def KeysConsistent (m : memory) : Prop :=
  ∀ e ∈ m.prefixes, e.1 = e.2.Cidr ++ "@" ++ e.2.Namespace

instance (m : memory) : Decidable (KeysConsistent m) :=
  inferInstanceAs (Decidable (∀ e ∈ m.prefixes, e.1 = e.2.Cidr ++ "@" ++ e.2.Namespace))

/-- The string does not contain the separator `@` of the composite key. -/
abbrev SepFree (s : String) : Prop := '@' ∉ s.data

/-- The first record of the colliding pair: cidr `10.0.0.0/8@x` in namespace `y`. -/
def collideA : Prefix :=
  { Cidr := "10.0.0.0/8@x", Namespace := "y", version := 0, payload := [] }

/-- The second record of the colliding pair: cidr `10.0.0.0/8` in namespace `x@y`. -/
def collideB : Prefix :=
  { Cidr := "10.0.0.0/8", Namespace := "x@y", version := 0, payload := [] }

/-- A record of namespace `a`. -/
def sampleA : Prefix :=
  { Cidr := "10.0.0.0/8", Namespace := "a", version := 0, payload := [1] }

/-- The same cidr as `sampleA`, in namespace `b`. -/
def sampleB : Prefix :=
  { Cidr := "10.0.0.0/8", Namespace := "b", version := 0, payload := [2] }

/-- The store after `CreatePrefix(sampleA)` on a new store. -/
def storeA : memory :=
  (CreatePrefix NewMemory Context.background sampleA).m

/-- The store after `CreatePrefix(collideB)` on a new store. -/
def storeCollide : memory :=
  (CreatePrefix NewMemory Context.background collideB).m

/-- The store after `CreatePrefix(sampleA)` and `CreatePrefix(sampleB)`. -/
def storeAB : memory :=
  (CreatePrefix storeA Context.background sampleB).m

/-- A record with an empty cidr, in namespace `a`. -/
def emptyCidr : Prefix :=
  { Cidr := "", Namespace := "a", version := 0, payload := [] }

/-- The store after `CreatePrefix(emptyCidr)` on a new store. -/
def storeEmptyCidr : memory :=
  (CreatePrefix NewMemory Context.background emptyCidr).m

/-- No key occurs twice among the entries, as in every Go map. -/
def KeysNodup (m : memory) : Prop :=
  (m.prefixes.map Prod.fst).Nodup

instance (m : memory) : Decidable (KeysNodup m) :=
  inferInstanceAs (Decidable ((m.prefixes.map Prod.fst).Nodup))

/-- A context that is already canceled when the method is entered. -/
def canceledCtx : Context := { canceled := true }

/-- The two modes in which a `sync.RWMutex` is held. -/
inductive LockMode where
  | exclusive
  | shared
  deriving DecidableEq, Repr

/-- The lock call each method opens with and releases by `defer` on return:
`m.lock.Lock()` is the exclusive mode, `m.lock.RLock()` the shared mode. -/
def lockMode : Op → LockMode
  | Op.create _ _ => LockMode.exclusive
  | Op.read _ _ _ => LockMode.shared
  | Op.readPrefixes _ _ => LockMode.shared
  | Op.deleteAll _ => LockMode.shared
  | Op.readAll _ => LockMode.shared
  | Op.readAllCidrs _ _ => LockMode.shared
  | Op.update _ _ => LockMode.exclusive
  | Op.delete _ _ => LockMode.exclusive

/-- The store and the record a caller holds after `n` rounds of
`UpdatePrefix`, each round passing on the record the previous one returned. -/
def updateTimes : Nat → memory → Prefix → memory × Prefix
  | 0, m, r => (m, r)
  | n + 1, m, r =>
    updateTimes n (UpdatePrefix m Context.background r).m
      (UpdatePrefix m Context.background r).val

/-- The record read back after `sampleA` was created and updated five times. -/
def readBack5 : Prefix :=
  (ReadPrefix (updateTimes 5 storeA sampleA).1 Context.background "10.0.0.0/8" "a").val

/-- The store after that record was deleted and then created again. -/
def storeRecreated : memory :=
  (CreatePrefix
    (DeletePrefix (updateTimes 5 storeA sampleA).1 Context.background readBack5).m
    Context.background readBack5).m

/-- The store after `CreatePrefix(collideA)` on a new store: one record, whose
cidr contains the separator and whose namespace does not. -/
def storeCidrSep : memory :=
  (CreatePrefix NewMemory Context.background collideA).m

/-! ## Facts about the map primitives -/

theorem deepCopy_eq (p : Prefix) : p.deepCopy = p := rfl

theorem mapGet_eq_none_iff (m : PrefixMap) (key : String) :
    mapGet m key = none ↔ ∀ e ∈ m, e.1 ≠ key := by
  induction m with
  | nil => simp [mapGet]
  | cons e rest ih =>
    obtain ⟨k, v⟩ := e
    by_cases hk : k = key
    · simp [mapGet, hk]
    · simp [mapGet, hk, ih]

theorem mapGet_mapDelete_self (m : PrefixMap) (key : String) :
    mapGet (mapDelete m key) key = none := by
  rw [mapGet_eq_none_iff]
  intro e he
  simpa [mapDelete] using (List.mem_filter.mp he).2

theorem mapGet_mapDelete_ne (m : PrefixMap) (key other : String) (h : other ≠ key) :
    mapGet (mapDelete m key) other = mapGet m other := by
  induction m with
  | nil => rfl
  | cons e rest ih =>
    obtain ⟨k, v⟩ := e
    by_cases hk : k = key
    · have hko : k ≠ other := fun h2 => h (h2 ▸ hk)
      have : mapDelete ((k, v) :: rest) key = mapDelete rest key := by
        simp [mapDelete, hk]
      rw [this, ih]
      simp [mapGet, hko]
    · have : mapDelete ((k, v) :: rest) key = (k, v) :: mapDelete rest key := by
        simp [mapDelete, hk]
      rw [this]
      by_cases hko : k = other
      · simp [mapGet, hko]
      · simp only [mapGet, hko, if_false]
        exact ih

theorem mapDelete_of_get_none (m : PrefixMap) (key : String) (h : mapGet m key = none) :
    mapDelete m key = m := by
  rw [mapGet_eq_none_iff] at h
  unfold mapDelete
  rw [List.filter_eq_self]
  intro e he
  simpa using h e he

theorem mapDelete_idem (m : PrefixMap) (key : String) :
    mapDelete (mapDelete m key) key = mapDelete m key :=
  mapDelete_of_get_none _ _ (mapGet_mapDelete_self m key)

theorem mapGet_mapSet_self (m : PrefixMap) (key : String) (v : Prefix) :
    mapGet (mapSet m key v) key = some v := by
  simp [mapSet, mapGet]

theorem mapGet_mapSet_ne (m : PrefixMap) (key other : String) (v : Prefix) (h : other ≠ key) :
    mapGet (mapSet m key v) other = mapGet m other := by
  have hk : key ≠ other := fun h2 => h h2.symm
  simp only [mapSet, mapGet, hk, if_false]
  exact mapGet_mapDelete_ne m key other h

/-! ## What each method does, case by case -/

theorem CreatePrefix_of_absent (m : memory) (c : Context) (p : Prefix)
    (h : mapGet m.prefixes (p.Cidr ++ "@" ++ p.Namespace) = none) :
    CreatePrefix m c p =
      ⟨{ prefixes := mapSet m.prefixes (p.Cidr ++ "@" ++ p.Namespace) p }, p, none⟩ := by
  simp [CreatePrefix, h, deepCopy_eq]

theorem CreatePrefix_of_present (m : memory) (c : Context) (p old : Prefix)
    (h : mapGet m.prefixes (p.Cidr ++ "@" ++ p.Namespace) = some old) :
    CreatePrefix m c p =
      ⟨m, Prefix.zero, some (Errorf "prefix already created:%v" [FmtArg.v p])⟩ := by
  simp [CreatePrefix, h]

theorem ReadPrefix_of_absent (m : memory) (c : Context) (cidr ns : String)
    (h : mapGet m.prefixes (cidr ++ "@" ++ ns) = none) :
    ReadPrefix m c cidr ns =
      ⟨m, Prefix.zero, some (Errorf "prefix %s not found" [FmtArg.s cidr])⟩ := by
  simp [ReadPrefix, h]

theorem ReadPrefix_of_present (m : memory) (c : Context) (cidr ns : String) (old : Prefix)
    (h : mapGet m.prefixes (cidr ++ "@" ++ ns) = some old) :
    ReadPrefix m c cidr ns = ⟨m, old, none⟩ := by
  simp [ReadPrefix, h, deepCopy_eq]

theorem ReadPrefix_m (m : memory) (c : Context) (cidr ns : String) :
    (ReadPrefix m c cidr ns).m = m := by
  cases h : mapGet m.prefixes (cidr ++ "@" ++ ns) with
  | none => rw [ReadPrefix_of_absent m c cidr ns h]
  | some old => rw [ReadPrefix_of_present m c cidr ns old h]

theorem ReadPrefix_err_eq_none_iff (m : memory) (c : Context) (cidr ns : String) :
    (ReadPrefix m c cidr ns).err = none ↔
      ∃ old, mapGet m.prefixes (cidr ++ "@" ++ ns) = some old := by
  cases h : mapGet m.prefixes (cidr ++ "@" ++ ns) with
  | none => simp [ReadPrefix_of_absent m c cidr ns h]
  | some old => simp [ReadPrefix_of_present m c cidr ns old h]

theorem UpdatePrefix_of_empty_cidr (m : memory) (c : Context) (p : Prefix) (h : p.Cidr = "") :
    UpdatePrefix m c p =
      ⟨m, Prefix.zero,
        some (Errorf "prefix not present:%v" [FmtArg.v { p with version := p.version + 1 }])⟩ := by
  simp [UpdatePrefix, h]

theorem UpdatePrefix_of_absent (m : memory) (c : Context) (p : Prefix) (hc : p.Cidr ≠ "")
    (h : mapGet m.prefixes (p.Cidr ++ "@" ++ p.Namespace) = none) :
    UpdatePrefix m c p =
      ⟨m, Prefix.zero, some (Errorf "prefix not found:%s" [FmtArg.s p.Cidr])⟩ := by
  simp [UpdatePrefix, hc, h]

theorem UpdatePrefix_of_conflict (m : memory) (c : Context) (p old : Prefix) (hc : p.Cidr ≠ "")
    (h : mapGet m.prefixes (p.Cidr ++ "@" ++ p.Namespace) = some old)
    (hv : old.version ≠ p.version) :
    UpdatePrefix m c p =
      ⟨m, Prefix.zero,
        some (Errorf "%w: unable to update prefix:%s"
          [FmtArg.w SentinelError.ErrOptimisticLockError, FmtArg.s p.Cidr])⟩ := by
  simp [UpdatePrefix, hc, h, hv]

theorem UpdatePrefix_of_match (m : memory) (c : Context) (p old : Prefix) (hc : p.Cidr ≠ "")
    (h : mapGet m.prefixes (p.Cidr ++ "@" ++ p.Namespace) = some old)
    (hv : old.version = p.version) :
    UpdatePrefix m c p =
      ⟨{ prefixes := mapSet m.prefixes (p.Cidr ++ "@" ++ p.Namespace)
            { p with version := p.version + 1 } },
        { p with version := p.version + 1 }, none⟩ := by
  simp [UpdatePrefix, hc, h, hv, deepCopy_eq]

/-- An update that returns no error found a record under its key whose version
is the one the caller carries, and the cidr is not empty. -/
theorem UpdatePrefix_success_inv (m : memory) (c : Context) (p : Prefix)
    (h : (UpdatePrefix m c p).err = none) :
    p.Cidr ≠ "" ∧ ∃ old, mapGet m.prefixes (p.Cidr ++ "@" ++ p.Namespace) = some old ∧
      old.version = p.version := by
  by_cases hc : p.Cidr = ""
  · rw [UpdatePrefix_of_empty_cidr m c p hc] at h
    simp at h
  · refine ⟨hc, ?_⟩
    cases hg : mapGet m.prefixes (p.Cidr ++ "@" ++ p.Namespace) with
    | none =>
      rw [UpdatePrefix_of_absent m c p hc hg] at h
      simp at h
    | some old =>
      by_cases hv : old.version = p.version
      · exact ⟨old, rfl, hv⟩
      · rw [UpdatePrefix_of_conflict m c p old hc hg hv] at h
        simp at h

/-! ## Optimistic locking -/

/-- Claim C1: when `UpdatePrefix(r)` succeeds (its result carrying the version
of `r` plus one), calling `UpdatePrefix` again with the same `r` fails, leaves
the store as it is, and returns the error built with `%w` around
`ErrOptimisticLockError`, so that `errors.Is` recognises the sentinel. -/
theorem UpdatePrefix_again_conflicts (m : memory) (c c2 : Context) (r : Prefix)
    (h : (UpdatePrefix m c r).err = none) :
    (UpdatePrefix m c r).val.version = r.version + 1 ∧
    (UpdatePrefix (UpdatePrefix m c r).m c2 r).err =
      some (Errorf "%w: unable to update prefix:%s"
        [FmtArg.w SentinelError.ErrOptimisticLockError, FmtArg.s r.Cidr]) ∧
    (∀ e, (UpdatePrefix (UpdatePrefix m c r).m c2 r).err = some e →
      errorsIs e SentinelError.ErrOptimisticLockError = true) ∧
    (UpdatePrefix (UpdatePrefix m c r).m c2 r).m = (UpdatePrefix m c r).m := by
  obtain ⟨hc, old, hg, hv⟩ := UpdatePrefix_success_inv m c r h
  rw [UpdatePrefix_of_match m c r old hc hg hv]
  have hg2 : mapGet (mapSet m.prefixes (r.Cidr ++ "@" ++ r.Namespace)
      { r with version := r.version + 1 }) (r.Cidr ++ "@" ++ r.Namespace) =
      some { r with version := r.version + 1 } := mapGet_mapSet_self _ _ _
  have hne : ({ r with version := r.version + 1 } : Prefix).version ≠ r.version := by
    simp
  dsimp only
  rw [UpdatePrefix_of_conflict ⟨mapSet m.prefixes _ _⟩ c2 r _ hc hg2 hne]
  refine ⟨rfl, rfl, ?_, rfl⟩
  intro e he
  simp only [Option.some.injEq] at he
  subst he
  rfl

/-- Claim C2: for a record `r` with a non-empty cidr whose key is read back
with the same version as `r` carries, `UpdatePrefix(r)` returns no error, the
record it returns is `r` with the version raised by exactly one, the store
holds that record under the key of `r`, and reading the key returns it. -/
theorem UpdatePrefix_success (m : memory) (c c2 c3 : Context) (r : Prefix)
    (hc : r.Cidr ≠ "")
    (hread : (ReadPrefix m c r.Cidr r.Namespace).err = none)
    (hver : (ReadPrefix m c r.Cidr r.Namespace).val.version = r.version) :
    (UpdatePrefix m c2 r).err = none ∧
    (UpdatePrefix m c2 r).val =
      { Cidr := r.Cidr, Namespace := r.Namespace, version := r.version + 1,
        payload := r.payload } ∧
    mapGet (UpdatePrefix m c2 r).m.prefixes (r.Cidr ++ "@" ++ r.Namespace) =
      some (UpdatePrefix m c2 r).val ∧
    (ReadPrefix (UpdatePrefix m c2 r).m c3 r.Cidr r.Namespace).err = none ∧
    (ReadPrefix (UpdatePrefix m c2 r).m c3 r.Cidr r.Namespace).val =
      (UpdatePrefix m c2 r).val := by
  obtain ⟨old, hg⟩ := (ReadPrefix_err_eq_none_iff m c r.Cidr r.Namespace).mp hread
  rw [ReadPrefix_of_present m c r.Cidr r.Namespace old hg] at hver
  simp only at hver
  rw [UpdatePrefix_of_match m c2 r old hc hg hver]
  have hg2 := mapGet_mapSet_self m.prefixes (r.Cidr ++ "@" ++ r.Namespace)
    { r with version := r.version + 1 }
  dsimp only
  rw [ReadPrefix_of_present ⟨mapSet m.prefixes _ _⟩ c3 r.Cidr r.Namespace _ hg2]
  exact ⟨rfl, rfl, hg2, rfl, rfl⟩

/-- Claim C3: when the cidr of `r` is empty, or reading the key of `r` fails,
`UpdatePrefix(r)` fails whatever the version of `r`: it returns the error
"prefix not present" (empty cidr) or "prefix not found" (no record under the
key), the zero record, and leaves the store unchanged; the error wraps nothing,
so `errors.Is` does not recognise `ErrOptimisticLockError` in it. -/
theorem UpdatePrefix_not_found (m : memory) (c c2 : Context) (r : Prefix)
    (h : r.Cidr = "" ∨ (ReadPrefix m c r.Cidr r.Namespace).err ≠ none) :
    ∃ e, (UpdatePrefix m c2 r).err = some e ∧
      (e = Errorf "prefix not present:%v" [FmtArg.v { r with version := r.version + 1 }] ∨
        e = Errorf "prefix not found:%s" [FmtArg.s r.Cidr]) ∧
      e.wrapped = none ∧
      errorsIs e SentinelError.ErrOptimisticLockError = false ∧
      (UpdatePrefix m c2 r).val = Prefix.zero ∧
      (UpdatePrefix m c2 r).m = m := by
  by_cases hc : r.Cidr = ""
  · rw [UpdatePrefix_of_empty_cidr m c2 r hc]
    exact ⟨_, rfl, Or.inl rfl, rfl, rfl, rfl, rfl⟩
  · have hr : (ReadPrefix m c r.Cidr r.Namespace).err ≠ none := h.resolve_left hc
    have hg : mapGet m.prefixes (r.Cidr ++ "@" ++ r.Namespace) = none := by
      cases hg : mapGet m.prefixes (r.Cidr ++ "@" ++ r.Namespace) with
      | none => rfl
      | some old => exact absurd ((ReadPrefix_err_eq_none_iff m c _ _).mpr ⟨old, hg⟩) hr
    rw [UpdatePrefix_of_absent m c2 r hc hg]
    exact ⟨_, rfl, Or.inr rfl, rfl, rfl, rfl, rfl⟩

/-! ## Creation, reading back, deletion -/

/-- Claim C4: `CreatePrefix(r)` returns no error exactly when reading the key
of `r` fails on the store before the call; and after a successful
`CreatePrefix(r)`, `CreatePrefix` of any record with the same cidr and
namespace fails with the error "prefix already created" and changes nothing. -/
theorem CreatePrefix_unique (m : memory) (c c2 c3 : Context) (r : Prefix) :
    ((CreatePrefix m c r).err = none ↔ (ReadPrefix m c2 r.Cidr r.Namespace).err ≠ none) ∧
    ((CreatePrefix m c r).err = none →
      ∀ r2 : Prefix, r2.Cidr = r.Cidr → r2.Namespace = r.Namespace →
        (CreatePrefix (CreatePrefix m c r).m c3 r2).err =
            some (Errorf "prefix already created:%v" [FmtArg.v r2]) ∧
          (CreatePrefix (CreatePrefix m c r).m c3 r2).m = (CreatePrefix m c r).m) := by
  cases hg : mapGet m.prefixes (r.Cidr ++ "@" ++ r.Namespace) with
  | some old =>
    rw [CreatePrefix_of_present m c r old hg, ReadPrefix_of_present m c2 _ _ old hg]
    simp
  | none =>
    rw [CreatePrefix_of_absent m c r hg, ReadPrefix_of_absent m c2 _ _ hg]
    refine ⟨by simp, ?_⟩
    intro _ r2 h1 h2
    have hg2 : mapGet (mapSet m.prefixes (r.Cidr ++ "@" ++ r.Namespace) r)
        (r2.Cidr ++ "@" ++ r2.Namespace) = some r := by
      rw [h1, h2]
      exact mapGet_mapSet_self _ _ _
    dsimp only
    rw [CreatePrefix_of_present ⟨mapSet m.prefixes _ _⟩ c3 r2 r hg2]
    exact ⟨rfl, rfl⟩

/-- Claim C5: after a successful `CreatePrefix(r)`, and after a successful
`UpdatePrefix(r)`, reading the key of `r` on the resulting store returns no
error and returns the very record the write returned, version included. -/
theorem ReadPrefix_after_write (m : memory) (c c2 : Context) (r : Prefix) :
    ((CreatePrefix m c r).err = none →
      (ReadPrefix (CreatePrefix m c r).m c2 r.Cidr r.Namespace).err = none ∧
      (ReadPrefix (CreatePrefix m c r).m c2 r.Cidr r.Namespace).val =
        (CreatePrefix m c r).val) ∧
    ((UpdatePrefix m c r).err = none →
      (ReadPrefix (UpdatePrefix m c r).m c2 r.Cidr r.Namespace).err = none ∧
      (ReadPrefix (UpdatePrefix m c r).m c2 r.Cidr r.Namespace).val =
        (UpdatePrefix m c r).val) := by
  constructor
  · intro h
    cases hg : mapGet m.prefixes (r.Cidr ++ "@" ++ r.Namespace) with
    | some old =>
      rw [CreatePrefix_of_present m c r old hg] at h
      simp at h
    | none =>
      rw [CreatePrefix_of_absent m c r hg]
      have hg2 := mapGet_mapSet_self m.prefixes (r.Cidr ++ "@" ++ r.Namespace) r
      dsimp only
      rw [ReadPrefix_of_present ⟨mapSet m.prefixes _ _⟩ c2 r.Cidr r.Namespace _ hg2]
      exact ⟨rfl, rfl⟩
  · intro h
    obtain ⟨hc, old, hg, hv⟩ := UpdatePrefix_success_inv m c r h
    rw [UpdatePrefix_of_match m c r old hc hg hv]
    have hg2 := mapGet_mapSet_self m.prefixes (r.Cidr ++ "@" ++ r.Namespace)
      { r with version := r.version + 1 }
    dsimp only
    rw [ReadPrefix_of_present ⟨mapSet m.prefixes _ _⟩ c2 r.Cidr r.Namespace _ hg2]
    exact ⟨rfl, rfl⟩

/-- Claim C6: `DeletePrefix(r)` never returns an error and returns `r`, for
every store and record; afterwards reading the key of `r` fails with "prefix
not found"; a second `DeletePrefix(r)` succeeds as well and leaves the store as
the first call left it; and when no record was stored under the key of `r`, the
first call already leaves the store unchanged. -/
theorem DeletePrefix_idempotent (m : memory) (c c2 c3 c4 : Context) (r : Prefix) :
    (DeletePrefix m c r).err = none ∧
    (DeletePrefix m c r).val = r ∧
    ReadPrefix (DeletePrefix m c r).m c2 r.Cidr r.Namespace =
      ⟨(DeletePrefix m c r).m, Prefix.zero,
        some (Errorf "prefix %s not found" [FmtArg.s r.Cidr])⟩ ∧
    (DeletePrefix (DeletePrefix m c r).m c3 r).err = none ∧
    (DeletePrefix (DeletePrefix m c r).m c3 r).val = r ∧
    (DeletePrefix (DeletePrefix m c r).m c3 r).m = (DeletePrefix m c r).m ∧
    ((ReadPrefix m c4 r.Cidr r.Namespace).err ≠ none → (DeletePrefix m c r).m = m) := by
  refine ⟨rfl, rfl, ?_, rfl, rfl, ?_, ?_⟩
  · exact ReadPrefix_of_absent _ c2 _ _ (mapGet_mapDelete_self m.prefixes _)
  · simp only [DeletePrefix, mapDelete_idem]
  · intro hr
    have hg : mapGet m.prefixes (r.Cidr ++ "@" ++ r.Namespace) = none := by
      cases hg : mapGet m.prefixes (r.Cidr ++ "@" ++ r.Namespace) with
      | none => rfl
      | some old => exact absurd ((ReadPrefix_err_eq_none_iff m c4 _ _).mpr ⟨old, hg⟩) hr
    simp only [DeletePrefix, mapDelete_of_get_none _ _ hg]

/-- Claim C9: `DeleteAllPrefixes` returns no error on every store, and on the
store it leaves `ReadAllPrefixes`, `ReadPrefixes(ns)` and
`ReadAllPrefixCidrs(ns)` return empty collections without error for every
`ns`, and `ReadPrefix(cidr, ns)` fails with "prefix not found" for every cidr
and namespace. -/
theorem DeleteAllPrefixes_resets (m : memory) (c c2 : Context) :
    (DeleteAllPrefixes m c).err = none ∧
    (ReadAllPrefixes (DeleteAllPrefixes m c).m c2).val = [] ∧
    (ReadAllPrefixes (DeleteAllPrefixes m c).m c2).err = none ∧
    (∀ ns, (ReadPrefixes (DeleteAllPrefixes m c).m c2 ns).val = [] ∧
      (ReadPrefixes (DeleteAllPrefixes m c).m c2 ns).err = none) ∧
    (∀ ns, (ReadAllPrefixCidrs (DeleteAllPrefixes m c).m c2 ns).val = [] ∧
      (ReadAllPrefixCidrs (DeleteAllPrefixes m c).m c2 ns).err = none) ∧
    (∀ cidr ns, (ReadPrefix (DeleteAllPrefixes m c).m c2 cidr ns).err =
      some (Errorf "prefix %s not found" [FmtArg.s cidr])) :=
  ⟨rfl, rfl, rfl, fun _ => ⟨rfl, rfl⟩, fun _ => ⟨rfl, rfl⟩, fun _ _ => rfl⟩

/-! ## Composite keys and the suffix test -/

theorem HasSuffix_iff (s suffix : String) :
    HasSuffix s suffix = true ↔ suffix.data <:+ s.data := by
  unfold HasSuffix
  rw [Bool.and_eq_true, decide_eq_true_iff, decide_eq_true_iff]
  constructor
  · rintro ⟨_, h⟩
    exact List.suffix_iff_eq_drop.mpr h.symm
  · intro h
    exact ⟨h.length_le, (List.suffix_iff_eq_drop.mp h).symm⟩

/-- Two lists split at a separator that occurs in neither tail agree on both
sides of the separator. -/
theorem split_at_last_sep {α : Type} (a : α) (c1 n1 c2 n2 : List α)
    (h1 : a ∉ n1) (h2 : a ∉ n2) (h : c1 ++ a :: n1 = c2 ++ a :: n2) :
    c1 = c2 ∧ n1 = n2 := by
  rcases List.append_eq_append_iff.mp h with ⟨t, hc, hn⟩ | ⟨t, hc, hn⟩
  · cases t with
    | nil => simp at hc hn; exact ⟨hc.symm, hn⟩
    | cons x t =>
      simp only [List.cons_append, List.cons.injEq] at hn
      exact absurd (hn.2 ▸ List.mem_append_right t (List.mem_cons_self a n2)) h1
  · cases t with
    | nil => simp at hc hn; exact ⟨hc, hn.symm⟩
    | cons x t =>
      simp only [List.cons_append, List.cons.injEq] at hn
      exact absurd (hn.2 ▸ List.mem_append_right t (List.mem_cons_self a n1)) h2

theorem key_data (cidr ns : String) :
    (cidr ++ "@" ++ ns).data = cidr.data ++ '@' :: ns.data := by
  simp [String.data_append]

/-- With separator-free namespaces the composite key determines the pair. -/
theorem key_injective (c1 n1 c2 n2 : String) (h1 : SepFree n1) (h2 : SepFree n2)
    (h : c1 ++ "@" ++ n1 = c2 ++ "@" ++ n2) : c1 = c2 ∧ n1 = n2 := by
  have hd := congrArg String.data h
  rw [key_data, key_data] at hd
  obtain ⟨hc, hn⟩ := split_at_last_sep '@' _ _ _ _ h1 h2 hd
  exact ⟨String.ext hc, String.ext hn⟩

/-- With separator-free namespaces the suffix test on a composite key is the
test that the namespaces are equal. -/
theorem HasSuffix_key_iff (cidr nsv ns : String) (h1 : SepFree nsv) (h2 : SepFree ns) :
    HasSuffix (cidr ++ "@" ++ nsv) ("@" ++ ns) = true ↔ nsv = ns := by
  rw [HasSuffix_iff, key_data]
  have hs : ("@" ++ ns).data = '@' :: ns.data := by simp [String.data_append]
  rw [hs]
  constructor
  · rintro ⟨t, ht⟩
    exact String.ext (split_at_last_sep '@' _ _ _ _ h2 h1 ht).2.symm
  · rintro rfl
    exact ⟨cidr.data, rfl⟩

/-- A key built from a record of namespace `ns` always passes the suffix test
for `ns`. -/
theorem HasSuffix_key_self (cidr ns : String) :
    HasSuffix (cidr ++ "@" ++ ns) ("@" ++ ns) = true := by
  rw [HasSuffix_iff, key_data]
  have hs : ("@" ++ ns).data = '@' :: ns.data := by simp [String.data_append]
  rw [hs]
  exact ⟨cidr.data, rfl⟩

/-! ## The loops over the map -/

theorem foldl_append_filter {α β : Type} (P : α → Bool) (f : α → β) (l : List α) (acc : List β) :
    l.foldl (fun ps kv => if P kv then ps ++ [f kv] else ps) acc =
      acc ++ (l.filter P).map f := by
  induction l generalizing acc with
  | nil => simp
  | cons x xs ih =>
    by_cases hx : P x = true
    · simp [List.foldl_cons, hx, ih]
    · simp [List.foldl_cons, hx, ih]

theorem foldl_append_all {α β : Type} (f : α → β) (l : List α) (acc : List β) :
    l.foldl (fun ps kv => ps ++ [f kv]) acc = acc ++ l.map f := by
  induction l generalizing acc with
  | nil => simp
  | cons x xs ih => simp [List.foldl_cons, ih]

theorem ReadPrefixes_val (m : memory) (c : Context) (ns : String) :
    (ReadPrefixes m c ns).val =
      (m.prefixes.filter (fun kv => HasSuffix kv.1 ("@" ++ ns))).map Prod.snd := by
  simp only [ReadPrefixes, deepCopy_eq]
  rw [foldl_append_filter (fun kv => HasSuffix kv.1 ("@" ++ ns)) Prod.snd]
  simp

theorem ReadAllPrefixes_val (m : memory) (c : Context) :
    (ReadAllPrefixes m c).val = storedRecords m := by
  simp only [ReadAllPrefixes, deepCopy_eq, storedRecords]
  rw [foldl_append_all Prod.snd]
  simp

/-! ## Keys stay consistent with the records under them -/

theorem mem_mapDelete {m : PrefixMap} {key : String} {e : String × Prefix} :
    e ∈ mapDelete m key ↔ e ∈ m ∧ e.1 ≠ key := by
  simp [mapDelete, List.mem_filter]

theorem mem_mapSet {m : PrefixMap} {key : String} {v : Prefix} {e : String × Prefix} :
    e ∈ mapSet m key v ↔ e = (key, v) ∨ (e ∈ m ∧ e.1 ≠ key) := by
  simp [mapSet, mem_mapDelete]

theorem KeysConsistent_mapSet (m : memory) (p : Prefix) (h : KeysConsistent m) :
    KeysConsistent ⟨mapSet m.prefixes (p.Cidr ++ "@" ++ p.Namespace) p⟩ := by
  intro e he
  rcases mem_mapSet.mp he with rfl | ⟨hm, _⟩
  · rfl
  · exact h e hm

theorem KeysConsistent_CreatePrefix (m : memory) (c : Context) (p : Prefix)
    (h : KeysConsistent m) : KeysConsistent (CreatePrefix m c p).m := by
  cases hg : mapGet m.prefixes (p.Cidr ++ "@" ++ p.Namespace) with
  | some old => rw [CreatePrefix_of_present m c p old hg]; exact h
  | none => rw [CreatePrefix_of_absent m c p hg]; exact KeysConsistent_mapSet m p h

theorem UpdatePrefix_m_cases (m : memory) (c : Context) (p : Prefix) :
    ((UpdatePrefix m c p).err ≠ none ∧ (UpdatePrefix m c p).m = m) ∨
    ((UpdatePrefix m c p).err = none ∧ p.Cidr ≠ "" ∧
      ∃ old, mapGet m.prefixes (p.Cidr ++ "@" ++ p.Namespace) = some old ∧
        old.version = p.version ∧
        (UpdatePrefix m c p).m =
          ⟨mapSet m.prefixes (p.Cidr ++ "@" ++ p.Namespace)
            { p with version := p.version + 1 }⟩) := by
  by_cases hc : p.Cidr = ""
  · left; rw [UpdatePrefix_of_empty_cidr m c p hc]; simp
  · cases hg : mapGet m.prefixes (p.Cidr ++ "@" ++ p.Namespace) with
    | none => left; rw [UpdatePrefix_of_absent m c p hc hg]; simp
    | some old =>
      by_cases hv : old.version = p.version
      · right
        rw [UpdatePrefix_of_match m c p old hc hg hv]
        exact ⟨rfl, hc, old, rfl, hv, rfl⟩
      · left; rw [UpdatePrefix_of_conflict m c p old hc hg hv]; simp

theorem KeysConsistent_UpdatePrefix (m : memory) (c : Context) (p : Prefix)
    (h : KeysConsistent m) : KeysConsistent (UpdatePrefix m c p).m := by
  rcases UpdatePrefix_m_cases m c p with ⟨_, hm⟩ | ⟨_, _, old, _, _, hm⟩
  · rw [hm]; exact h
  · rw [hm]
    exact KeysConsistent_mapSet m { p with version := p.version + 1 } h

theorem KeysConsistent_DeletePrefix (m : memory) (c : Context) (p : Prefix)
    (h : KeysConsistent m) : KeysConsistent (DeletePrefix m c p).m := by
  intro e he
  exact h e (mem_mapDelete.mp he).1

theorem KeysConsistent_applyOp (m : memory) (op : Op) (h : KeysConsistent m) :
    KeysConsistent (applyOp m op).1 := by
  cases op with
  | create c p => exact KeysConsistent_CreatePrefix m c p h
  | read c cidr ns =>
    show KeysConsistent (ReadPrefix m c cidr ns).m
    rw [ReadPrefix_m]
    exact h
  | readPrefixes c ns => exact h
  | deleteAll c =>
    intro e he
    simp [applyOp, DeleteAllPrefixes] at he
  | readAll c => exact h
  | readAllCidrs c ns => exact h
  | update c p => exact KeysConsistent_UpdatePrefix m c p h
  | delete c p => exact KeysConsistent_DeletePrefix m c p h

/-- In every reachable store each entry sits under the key of its record. -/
theorem Reachable.keysConsistent {m : memory} (h : Reachable m) : KeysConsistent m := by
  induction h with
  | init => intro e he; simp [NewMemory] at he
  | step m op _ ih => exact KeysConsistent_applyOp m op ih

/-! ## Namespaces -/

/-- On a new store, creating two records whose keys differ leaves a map with
exactly those two entries. -/
theorem create_two_prefixes (c c2 : Context) (r1 r2 : Prefix)
    (hk : r1.Cidr ++ "@" ++ r1.Namespace ≠ r2.Cidr ++ "@" ++ r2.Namespace) :
    (CreatePrefix NewMemory c r1).err = none ∧
    (CreatePrefix (CreatePrefix NewMemory c r1).m c2 r2).err = none ∧
    (CreatePrefix (CreatePrefix NewMemory c r1).m c2 r2).m.prefixes =
      [(r2.Cidr ++ "@" ++ r2.Namespace, r2), (r1.Cidr ++ "@" ++ r1.Namespace, r1)] := by
  have h1 : CreatePrefix NewMemory c r1 =
      ⟨⟨[(r1.Cidr ++ "@" ++ r1.Namespace, r1)]⟩, r1, none⟩ := by
    rw [CreatePrefix_of_absent NewMemory c r1 rfl]
    rfl
  rw [h1]
  dsimp only
  have hg : mapGet (memory.mk [(r1.Cidr ++ "@" ++ r1.Namespace, r1)]).prefixes
      (r2.Cidr ++ "@" ++ r2.Namespace) = none := by
    simp [mapGet, hk]
  rw [CreatePrefix_of_absent ⟨[(r1.Cidr ++ "@" ++ r1.Namespace, r1)]⟩ c2 r2 hg]
  refine ⟨rfl, rfl, ?_⟩
  simp [mapSet, mapDelete, hk]

/-- Claim C7, amended: on every reachable store `ReadPrefixes(ns)` returns no
error and returns every stored record whose namespace is `ns`; when no stored
namespace and not `ns` itself contains the separator `@`, it returns, up to
order, exactly the stored records of namespace `ns`.  In particular, after a
new store received the same cidr in two different separator-free namespaces,
`ReadPrefixes` of the first namespace returns only the first record and
`ReadPrefixes` of the second only the second. -/
theorem ReadPrefixes_filters_namespace (m : memory) (hr : Reachable m) (c c2 c3 : Context)
    (ns : String) (ra rb : Prefix) :
    (ReadPrefixes m c ns).err = none ∧
    (∀ p ∈ storedRecords m, p.Namespace = ns → p ∈ (ReadPrefixes m c ns).val) ∧
    ((∀ p ∈ storedRecords m, SepFree p.Namespace) → SepFree ns →
      (ReadPrefixes m c ns).val.Perm
        ((storedRecords m).filter (fun p => decide (p.Namespace = ns)))) ∧
    (ra.Cidr = rb.Cidr → ra.Namespace ≠ rb.Namespace →
      SepFree ra.Namespace → SepFree rb.Namespace →
      (CreatePrefix NewMemory c2 ra).err = none ∧
      (CreatePrefix (CreatePrefix NewMemory c2 ra).m c3 rb).err = none ∧
      (ReadPrefixes (CreatePrefix (CreatePrefix NewMemory c2 ra).m c3 rb).m c
        ra.Namespace).val = [ra] ∧
      (ReadPrefixes (CreatePrefix (CreatePrefix NewMemory c2 ra).m c3 rb).m c
        rb.Namespace).val = [rb]) := by
  have hkc := hr.keysConsistent
  refine ⟨rfl, ?_, ?_, ?_⟩
  · intro p hp hns
    rw [ReadPrefixes_val]
    obtain ⟨e, he, rfl⟩ := List.mem_map.mp hp
    refine List.mem_map.mpr ⟨e, List.mem_filter.mpr ⟨he, ?_⟩, rfl⟩
    show HasSuffix e.1 ("@" ++ ns) = true
    rw [hkc e he, hns]
    exact HasSuffix_key_self _ _
  · intro hs hns
    rw [ReadPrefixes_val, storedRecords, List.filter_map]
    have hf : m.prefixes.filter (fun kv => HasSuffix kv.1 ("@" ++ ns)) =
        m.prefixes.filter ((fun p : Prefix => decide (p.Namespace = ns)) ∘ Prod.snd) := by
      apply List.filter_congr
      intro e he
      have hse : SepFree e.2.Namespace := hs e.2 (List.mem_map.mpr ⟨e, he, rfl⟩)
      have hiff := HasSuffix_key_iff e.2.Cidr e.2.Namespace ns hse hns
      rw [← hkc e he] at hiff
      by_cases hn : e.2.Namespace = ns
      · simp [hn, hiff.mpr hn]
      · have : HasSuffix e.1 ("@" ++ ns) = false := by
          cases hh : HasSuffix e.1 ("@" ++ ns) with
          | false => rfl
          | true => exact absurd (hiff.mp hh) hn
        simp [hn, this]
    rw [hf]
  · intro hcidr hne hsa hsb
    have hk : ra.Cidr ++ "@" ++ ra.Namespace ≠ rb.Cidr ++ "@" ++ rb.Namespace :=
      fun h => hne (key_injective _ _ _ _ hsa hsb h).2
    obtain ⟨h1, h2, h3⟩ := create_two_prefixes c2 c3 ra rb hk
    refine ⟨h1, h2, ?_, ?_⟩
    · rw [ReadPrefixes_val, h3]
      have hb : HasSuffix (rb.Cidr ++ "@" ++ rb.Namespace) ("@" ++ ra.Namespace) = false := by
        cases hh : HasSuffix (rb.Cidr ++ "@" ++ rb.Namespace) ("@" ++ ra.Namespace) with
        | false => rfl
        | true => exact absurd ((HasSuffix_key_iff _ _ _ hsb hsa).mp hh).symm hne
      simp [List.filter_cons, hb, HasSuffix_key_self]
    · rw [ReadPrefixes_val, h3]
      have ha : HasSuffix (ra.Cidr ++ "@" ++ ra.Namespace) ("@" ++ rb.Namespace) = false := by
        cases hh : HasSuffix (ra.Cidr ++ "@" ++ ra.Namespace) ("@" ++ rb.Namespace) with
        | false => rfl
        | true => exact absurd ((HasSuffix_key_iff _ _ _ hsa hsb).mp hh) hne
      simp [List.filter_cons, ha, HasSuffix_key_self]

/-- Claim C7 fails as stated: after `CreatePrefix` of the cidr `10.0.0.0/8` in
namespace `x@y` on a new store, `ReadPrefixes("y")` returns that record,
although its namespace is not `y`. -/
theorem ReadPrefixes_returns_other_namespace :
    Reachable storeCollide ∧
    (ReadPrefixes storeCollide Context.background "y").err = none ∧
    (ReadPrefixes storeCollide Context.background "y").val = [collideB] ∧
    collideB ∈ storedRecords storeCollide ∧
    collideB.Namespace ≠ "y" :=
  ⟨Reachable.step NewMemory (Op.create Context.background collideB) Reachable.init,
    by decide, by decide, by decide, by decide⟩

/-! ## Composite keys -/

/-- Claim C8, amended: two records whose composite keys `cidr@namespace`
differ are kept apart: on a new store both `CreatePrefix` calls succeed,
`ReadAllPrefixes` returns the two records, and `ReadPrefix` of each pair
returns its own record.  The keys differ whenever the (cidr, namespace) pairs
differ and neither namespace contains the separator `@`. -/
theorem CreatePrefix_keeps_distinct_keys_apart (c c2 c3 c4 c5 : Context) (r1 r2 : Prefix) :
    ((r1.Cidr ≠ r2.Cidr ∨ r1.Namespace ≠ r2.Namespace) →
      SepFree r1.Namespace → SepFree r2.Namespace →
      r1.Cidr ++ "@" ++ r1.Namespace ≠ r2.Cidr ++ "@" ++ r2.Namespace) ∧
    (r1.Cidr ++ "@" ++ r1.Namespace ≠ r2.Cidr ++ "@" ++ r2.Namespace →
      (CreatePrefix NewMemory c r1).err = none ∧
      (CreatePrefix (CreatePrefix NewMemory c r1).m c2 r2).err = none ∧
      (ReadAllPrefixes (CreatePrefix (CreatePrefix NewMemory c r1).m c2 r2).m c3).err = none ∧
      (ReadAllPrefixes (CreatePrefix (CreatePrefix NewMemory c r1).m c2 r2).m c3).val.length
        = 2 ∧
      (ReadAllPrefixes (CreatePrefix (CreatePrefix NewMemory c r1).m c2 r2).m c3).val.Perm
        [r1, r2] ∧
      (ReadPrefix (CreatePrefix (CreatePrefix NewMemory c r1).m c2 r2).m c4
        r1.Cidr r1.Namespace).err = none ∧
      (ReadPrefix (CreatePrefix (CreatePrefix NewMemory c r1).m c2 r2).m c4
        r1.Cidr r1.Namespace).val = r1 ∧
      (ReadPrefix (CreatePrefix (CreatePrefix NewMemory c r1).m c2 r2).m c5
        r2.Cidr r2.Namespace).err = none ∧
      (ReadPrefix (CreatePrefix (CreatePrefix NewMemory c r1).m c2 r2).m c5
        r2.Cidr r2.Namespace).val = r2) := by
  constructor
  · intro hne h1 h2 hk
    obtain ⟨hc, hn⟩ := key_injective _ _ _ _ h1 h2 hk
    rcases hne with h | h
    · exact h hc
    · exact h hn
  · intro hk
    obtain ⟨h1, h2, h3⟩ := create_two_prefixes c c2 r1 r2 hk
    have hg1 : mapGet (CreatePrefix (CreatePrefix NewMemory c r1).m c2 r2).m.prefixes
        (r1.Cidr ++ "@" ++ r1.Namespace) = some r1 := by
      rw [h3]
      simp [mapGet, hk, Ne.symm hk]
    have hg2 : mapGet (CreatePrefix (CreatePrefix NewMemory c r1).m c2 r2).m.prefixes
        (r2.Cidr ++ "@" ++ r2.Namespace) = some r2 := by
      rw [h3]
      simp [mapGet]
    refine ⟨h1, h2, rfl, ?_, ?_, ?_, ?_, ?_, ?_⟩
    · rw [ReadAllPrefixes_val, storedRecords, h3]
      rfl
    · rw [ReadAllPrefixes_val, storedRecords, h3]
      exact List.Perm.swap r1 r2 []
    · rw [ReadPrefix_of_present _ c4 _ _ r1 hg1]
    · rw [ReadPrefix_of_present _ c4 _ _ r1 hg1]
    · rw [ReadPrefix_of_present _ c5 _ _ r2 hg2]
    · rw [ReadPrefix_of_present _ c5 _ _ r2 hg2]

/-- Claim C8 fails as stated: the pairs (`10.0.0.0/8@x`, `y`) and
(`10.0.0.0/8`, `x@y`) differ, yet on a new store the second `CreatePrefix`
fails with "prefix already created", `ReadAllPrefixes` returns one record, and
`ReadPrefix` of the second pair returns the first record. -/
theorem CreatePrefix_collides_on_separator :
    (collideA.Cidr ≠ collideB.Cidr ∧ collideA.Namespace ≠ collideB.Namespace) ∧
    (CreatePrefix NewMemory Context.background collideA).err = none ∧
    (CreatePrefix (CreatePrefix NewMemory Context.background collideA).m
      Context.background collideB).err =
        some (Errorf "prefix already created:%v" [FmtArg.v collideB]) ∧
    (ReadAllPrefixes (CreatePrefix (CreatePrefix NewMemory Context.background collideA).m
      Context.background collideB).m Context.background).val = [collideA] ∧
    (ReadPrefix (CreatePrefix (CreatePrefix NewMemory Context.background collideA).m
      Context.background collideB).m Context.background
        collideB.Cidr collideB.Namespace).val = collideA := by
  decide

/-! ## Versions -/

/-- What one call does to the entry under a key that holds a record: it leaves
the entry as it is, removes it, or is an accepted update filed under that very
key, which stores the caller's record with the version raised by one. -/
theorem applyOp_entry_cases (m : memory) (op : Op) (key : String) (old : Prefix)
    (h : mapGet m.prefixes key = some old) :
    mapGet (applyOp m op).1.prefixes key = some old ∨
    mapGet (applyOp m op).1.prefixes key = none ∨
    ∃ c p, op = Op.update c p ∧ (applyOp m op).2 = none ∧
      p.Cidr ++ "@" ++ p.Namespace = key ∧ old.version = p.version ∧
      mapGet (applyOp m op).1.prefixes key = some { p with version := p.version + 1 } := by
  cases op with
  | create c p =>
    left
    show mapGet (CreatePrefix m c p).m.prefixes key = some old
    cases hg : mapGet m.prefixes (p.Cidr ++ "@" ++ p.Namespace) with
    | some other => rw [CreatePrefix_of_present m c p other hg]; exact h
    | none =>
      rw [CreatePrefix_of_absent m c p hg]
      have hne : key ≠ p.Cidr ++ "@" ++ p.Namespace := by
        intro he
        rw [he, hg] at h
        exact Option.noConfusion h
      rw [mapGet_mapSet_ne _ _ _ _ hne]
      exact h
  | read c cidr ns =>
    left
    show mapGet (ReadPrefix m c cidr ns).m.prefixes key = some old
    rw [ReadPrefix_m]
    exact h
  | readPrefixes c ns => exact Or.inl h
  | deleteAll c => exact Or.inr (Or.inl rfl)
  | readAll c => exact Or.inl h
  | readAllCidrs c ns => exact Or.inl h
  | update c p =>
    show mapGet (UpdatePrefix m c p).m.prefixes key = some old ∨
      mapGet (UpdatePrefix m c p).m.prefixes key = none ∨ _
    rcases UpdatePrefix_m_cases m c p with ⟨_, hm⟩ | ⟨herr, _, stored, hg, hv, hm⟩
    · left; rw [hm]; exact h
    · by_cases hk : key = p.Cidr ++ "@" ++ p.Namespace
      · right; right
        refine ⟨c, p, rfl, herr, hk.symm, ?_, ?_⟩
        · rw [hk, hg] at h
          rw [← Option.some.inj h]
          exact hv
        · show mapGet (UpdatePrefix m c p).m.prefixes key = _
          rw [hm, hk]
          exact mapGet_mapSet_self _ _ _
      · left
        rw [hm, mapGet_mapSet_ne _ _ _ _ hk]
        exact h
  | delete c p =>
    show mapGet (mapDelete m.prefixes (p.Cidr ++ "@" ++ p.Namespace)) key = some old ∨
      mapGet (mapDelete m.prefixes (p.Cidr ++ "@" ++ p.Namespace)) key = none ∨ _
    by_cases hk : key = p.Cidr ++ "@" ++ p.Namespace
    · right; left
      rw [hk]
      exact mapGet_mapDelete_self _ _
    · left
      rw [mapGet_mapDelete_ne _ _ _ hk]
      exact h

/-- Claim C10, amended: over one call of any public method, a key that is read
successfully before and after keeps its version or has it raised by exactly
one, never lowered; it is raised only by a successful `UpdatePrefix` of a
record whose composite key `cidr@namespace` is the key read, and that record
has the very cidr and namespace read whenever neither namespace contains the
separator `@`. -/
theorem version_moves_by_accepted_update (m : memory) (op : Op) (c c2 : Context)
    (cidr ns : String)
    (hb : (ReadPrefix m c cidr ns).err = none)
    (ha : (ReadPrefix (applyOp m op).1 c2 cidr ns).err = none) :
    ((ReadPrefix (applyOp m op).1 c2 cidr ns).val.version = (ReadPrefix m c cidr ns).val.version ∨
      (ReadPrefix (applyOp m op).1 c2 cidr ns).val.version =
        (ReadPrefix m c cidr ns).val.version + 1) ∧
    (ReadPrefix m c cidr ns).val.version ≤ (ReadPrefix (applyOp m op).1 c2 cidr ns).val.version ∧
    ((ReadPrefix (applyOp m op).1 c2 cidr ns).val.version =
        (ReadPrefix m c cidr ns).val.version + 1 →
      ∃ c3 p, op = Op.update c3 p ∧ (applyOp m op).2 = none ∧
        p.Cidr ++ "@" ++ p.Namespace = cidr ++ "@" ++ ns ∧
        (SepFree ns → SepFree p.Namespace → p.Cidr = cidr ∧ p.Namespace = ns)) := by
  obtain ⟨old, hg⟩ := (ReadPrefix_err_eq_none_iff m c cidr ns).mp hb
  obtain ⟨new, hg2⟩ := (ReadPrefix_err_eq_none_iff _ c2 cidr ns).mp ha
  rw [ReadPrefix_of_present m c cidr ns old hg,
    ReadPrefix_of_present _ c2 cidr ns new hg2]
  dsimp only
  rcases applyOp_entry_cases m op _ old hg with h | h | ⟨c3, p, hop, herr, hk, hv, h⟩
  · rw [hg2] at h
    have hnew : new = old := Option.some.inj h
    subst hnew
    refine ⟨Or.inl rfl, le_refl _, ?_⟩
    intro habs
    omega
  · rw [hg2] at h
    exact Option.noConfusion h
  · rw [hg2] at h
    have hnew : new = { p with version := p.version + 1 } := Option.some.inj h
    have hver : new.version = old.version + 1 := by
      rw [hnew, hv]
    refine ⟨Or.inr hver, by omega, ?_⟩
    intro _
    refine ⟨c3, p, hop, herr, hk, ?_⟩
    intro hs1 hs2
    exact key_injective _ _ _ _ hs2 hs1 hk

/-- Claim C10 fails as stated: on the store holding cidr `10.0.0.0/8` in
namespace `x@y` at version 0, the pair (`10.0.0.0/8@x`, `y`) is read at version
0; after the successful `UpdatePrefix` of (`10.0.0.0/8`, `x@y`) the same pair is
read at version 1, although the update was not of that pair. -/
theorem version_raised_by_update_of_other_pair :
    (ReadPrefix storeCollide Context.background "10.0.0.0/8@x" "y").err = none ∧
    (ReadPrefix storeCollide Context.background "10.0.0.0/8@x" "y").val.version = 0 ∧
    (applyOp storeCollide (Op.update Context.background collideB)).2 = none ∧
    (ReadPrefix (applyOp storeCollide (Op.update Context.background collideB)).1
      Context.background "10.0.0.0/8@x" "y").err = none ∧
    (ReadPrefix (applyOp storeCollide (Op.update Context.background collideB)).1
      Context.background "10.0.0.0/8@x" "y").val.version = 1 ∧
    ¬ (collideB.Cidr = "10.0.0.0/8@x" ∧ collideB.Namespace = "y") := by
  decide

/-! ## The statements at concrete stores -/

/-- `UpdatePrefix_again_conflicts` on the store holding `sampleA`: the first
update succeeds, the second one with the same record is refused. -/
theorem UpdatePrefix_again_conflicts_witness :
    (UpdatePrefix storeA Context.background sampleA).err = none ∧
    (UpdatePrefix storeA Context.background sampleA).val.version = sampleA.version + 1 ∧
    (UpdatePrefix (UpdatePrefix storeA Context.background sampleA).m
      Context.background sampleA).err =
        some (Errorf "%w: unable to update prefix:%s"
          [FmtArg.w SentinelError.ErrOptimisticLockError, FmtArg.s sampleA.Cidr]) :=
  ⟨by decide,
    (UpdatePrefix_again_conflicts storeA Context.background Context.background sampleA
      (by decide)).1,
    (UpdatePrefix_again_conflicts storeA Context.background Context.background sampleA
      (by decide)).2.1⟩

/-- `UpdatePrefix_success` on the store holding `sampleA`. -/
theorem UpdatePrefix_success_witness :
    sampleA.Cidr ≠ "" ∧
    (ReadPrefix storeA Context.background sampleA.Cidr sampleA.Namespace).err = none ∧
    (ReadPrefix storeA Context.background sampleA.Cidr sampleA.Namespace).val.version =
      sampleA.version ∧
    (UpdatePrefix storeA Context.background sampleA).err = none ∧
    (UpdatePrefix storeA Context.background sampleA).val =
      { Cidr := sampleA.Cidr, Namespace := sampleA.Namespace, version := sampleA.version + 1,
        payload := sampleA.payload } :=
  ⟨by decide, by decide, by decide,
    (UpdatePrefix_success storeA Context.background Context.background Context.background
      sampleA (by decide) (by decide) (by decide)).1,
    (UpdatePrefix_success storeA Context.background Context.background Context.background
      sampleA (by decide) (by decide) (by decide)).2.1⟩

/-- `UpdatePrefix_not_found` for a record with an empty cidr, on a store that
holds a record with an empty cidr in the same namespace. -/
theorem UpdatePrefix_not_found_witness :
    (ReadPrefix storeEmptyCidr Context.background emptyCidr.Cidr emptyCidr.Namespace).err
      = none ∧
    ∃ e, (UpdatePrefix storeEmptyCidr Context.background emptyCidr).err = some e ∧
      (e = Errorf "prefix not present:%v"
          [FmtArg.v { emptyCidr with version := emptyCidr.version + 1 }] ∨
        e = Errorf "prefix not found:%s" [FmtArg.s emptyCidr.Cidr]) ∧
      e.wrapped = none ∧
      errorsIs e SentinelError.ErrOptimisticLockError = false ∧
      (UpdatePrefix storeEmptyCidr Context.background emptyCidr).val = Prefix.zero ∧
      (UpdatePrefix storeEmptyCidr Context.background emptyCidr).m = storeEmptyCidr :=
  ⟨by decide,
    UpdatePrefix_not_found storeEmptyCidr Context.background Context.background emptyCidr
      (Or.inl rfl)⟩

/-- `CreatePrefix_unique` on a new store: `sampleA` is created, and a second
record with the same cidr and namespace is refused. -/
theorem CreatePrefix_unique_witness :
    (CreatePrefix NewMemory Context.background sampleA).err = none ∧
    (CreatePrefix (CreatePrefix NewMemory Context.background sampleA).m Context.background
      { sampleA with version := 7 }).err =
        some (Errorf "prefix already created:%v" [FmtArg.v { sampleA with version := 7 }]) :=
  ⟨by decide,
    ((CreatePrefix_unique NewMemory Context.background Context.background Context.background
      sampleA).2 (by decide) { sampleA with version := 7 } rfl rfl).1⟩

/-- `ReadPrefix_after_write` on a new store (create) and on the store holding
`sampleA` (update). -/
theorem ReadPrefix_after_write_witness :
    ((CreatePrefix NewMemory Context.background sampleA).err = none ∧
      (ReadPrefix (CreatePrefix NewMemory Context.background sampleA).m Context.background
        sampleA.Cidr sampleA.Namespace).val =
          (CreatePrefix NewMemory Context.background sampleA).val) ∧
    ((UpdatePrefix storeA Context.background sampleA).err = none ∧
      (ReadPrefix (UpdatePrefix storeA Context.background sampleA).m Context.background
        sampleA.Cidr sampleA.Namespace).val =
          (UpdatePrefix storeA Context.background sampleA).val) :=
  ⟨⟨by decide,
      ((ReadPrefix_after_write NewMemory Context.background Context.background sampleA).1
        (by decide)).2⟩,
    ⟨by decide,
      ((ReadPrefix_after_write storeA Context.background Context.background sampleA).2
        (by decide)).2⟩⟩

/-- `DeletePrefix_idempotent` on the store holding `sampleA`, for the record
`sampleB` that is not stored: the store is left unchanged. -/
theorem DeletePrefix_idempotent_witness :
    (ReadPrefix storeA Context.background sampleB.Cidr sampleB.Namespace).err ≠ none ∧
    (DeletePrefix storeA Context.background sampleB).m = storeA :=
  ⟨by decide,
    (DeletePrefix_idempotent storeA Context.background Context.background Context.background
      Context.background sampleB).2.2.2.2.2.2 (by decide)⟩

/-- `ReadPrefixes_filters_namespace` on the store holding `sampleA` and
`sampleB`, for the namespace `a`. -/
theorem ReadPrefixes_filters_namespace_witness :
    Reachable storeAB ∧
    (∀ p ∈ storedRecords storeAB, SepFree p.Namespace) ∧ SepFree "a" ∧
    (ReadPrefixes storeAB Context.background "a").val.Perm
      ((storedRecords storeAB).filter (fun p => decide (p.Namespace = "a"))) ∧
    (sampleA.Cidr = sampleB.Cidr ∧ sampleA.Namespace ≠ sampleB.Namespace ∧
      SepFree sampleA.Namespace ∧ SepFree sampleB.Namespace) ∧
    (ReadPrefixes (CreatePrefix (CreatePrefix NewMemory Context.background sampleA).m
      Context.background sampleB).m Context.background sampleA.Namespace).val = [sampleA] ∧
    (ReadPrefixes (CreatePrefix (CreatePrefix NewMemory Context.background sampleA).m
      Context.background sampleB).m Context.background sampleB.Namespace).val = [sampleB] :=
  have hr : Reachable storeAB :=
    Reachable.step storeA (Op.create Context.background sampleB)
      (Reachable.step NewMemory (Op.create Context.background sampleA) Reachable.init)
  ⟨hr, by decide, by decide,
    (ReadPrefixes_filters_namespace storeAB hr Context.background Context.background
      Context.background "a" sampleA sampleB).2.2.1 (by decide) (by decide),
    ⟨by decide, by decide, by decide, by decide⟩,
    ((ReadPrefixes_filters_namespace storeAB hr Context.background Context.background
      Context.background "a" sampleA sampleB).2.2.2
        (by decide) (by decide) (by decide) (by decide)).2.2.1,
    ((ReadPrefixes_filters_namespace storeAB hr Context.background Context.background
      Context.background "a" sampleA sampleB).2.2.2
        (by decide) (by decide) (by decide) (by decide)).2.2.2⟩

/-- `CreatePrefix_keeps_distinct_keys_apart` for `sampleA` and `sampleB`. -/
theorem CreatePrefix_keeps_distinct_keys_apart_witness :
    (sampleA.Cidr ≠ sampleB.Cidr ∨ sampleA.Namespace ≠ sampleB.Namespace) ∧
    SepFree sampleA.Namespace ∧ SepFree sampleB.Namespace ∧
    sampleA.Cidr ++ "@" ++ sampleA.Namespace ≠ sampleB.Cidr ++ "@" ++ sampleB.Namespace ∧
    (ReadAllPrefixes (CreatePrefix (CreatePrefix NewMemory Context.background sampleA).m
      Context.background sampleB).m Context.background).val.length = 2 ∧
    (ReadPrefix (CreatePrefix (CreatePrefix NewMemory Context.background sampleA).m
      Context.background sampleB).m Context.background
        sampleA.Cidr sampleA.Namespace).val = sampleA :=
  have hk := (CreatePrefix_keeps_distinct_keys_apart Context.background Context.background
    Context.background Context.background Context.background sampleA sampleB).1
      (Or.inr (by decide)) (by decide) (by decide)
  ⟨Or.inr (by decide), by decide, by decide, hk,
    ((CreatePrefix_keeps_distinct_keys_apart Context.background Context.background
      Context.background Context.background Context.background sampleA sampleB).2 hk).2.2.2.1,
    ((CreatePrefix_keeps_distinct_keys_apart Context.background Context.background
      Context.background Context.background Context.background sampleA sampleB).2
        hk).2.2.2.2.2.2.1⟩

/-- `version_moves_by_accepted_update` on the store holding `sampleA`, for the
accepted update of `sampleA`: the version read goes from 0 to 1. -/
theorem version_moves_by_accepted_update_witness :
    (ReadPrefix storeA Context.background "10.0.0.0/8" "a").err = none ∧
    (ReadPrefix (applyOp storeA (Op.update Context.background sampleA)).1
      Context.background "10.0.0.0/8" "a").err = none ∧
    (ReadPrefix storeA Context.background "10.0.0.0/8" "a").val.version ≤
      (ReadPrefix (applyOp storeA (Op.update Context.background sampleA)).1
        Context.background "10.0.0.0/8" "a").val.version :=
  ⟨by decide, by decide,
    (version_moves_by_accepted_update storeA (Op.update Context.background sampleA)
      Context.background Context.background "10.0.0.0/8" "a" (by decide) (by decide)).2.1⟩

/-! ## Keys occur once -/

theorem mem_of_mapGet {m : PrefixMap} {key : String} {v : Prefix}
    (h : mapGet m key = some v) : (key, v) ∈ m := by
  induction m with
  | nil => simp [mapGet] at h
  | cons e rest ih =>
    obtain ⟨k, w⟩ := e
    by_cases hk : k = key
    · simp only [mapGet, hk, if_true, Option.some.injEq] at h
      rw [hk, h]
      exact List.mem_cons_self _ _
    · simp only [mapGet, hk, if_false] at h
      exact List.mem_cons_of_mem _ (ih h)

theorem mapGet_of_mem {m : PrefixMap} {key : String} {v : Prefix}
    (hnd : (m.map Prod.fst).Nodup) (h : (key, v) ∈ m) : mapGet m key = some v := by
  induction m with
  | nil => simp at h
  | cons e rest ih =>
    obtain ⟨k, w⟩ := e
    rw [List.map_cons, List.nodup_cons] at hnd
    rcases List.mem_cons.mp h with heq | hin
    · obtain ⟨hk, hw⟩ := Prod.mk.inj heq
      simp [mapGet, hk, hw]
    · have hk : k ≠ key := by
        intro hk
        exact hnd.1 (List.mem_map.mpr ⟨(key, v), hin, hk.symm⟩)
      simp only [mapGet, hk, if_false]
      exact ih hnd.2 hin

theorem nodup_keys_mapDelete (m : PrefixMap) (key : String)
    (h : (m.map Prod.fst).Nodup) : ((mapDelete m key).map Prod.fst).Nodup :=
  List.Nodup.sublist ((List.filter_sublist m).map Prod.fst) h

theorem nodup_keys_mapSet (m : PrefixMap) (key : String) (v : Prefix)
    (h : (m.map Prod.fst).Nodup) : ((mapSet m key v).map Prod.fst).Nodup := by
  unfold mapSet
  rw [List.map_cons, List.nodup_cons]
  refine ⟨?_, nodup_keys_mapDelete m key h⟩
  intro hin
  obtain ⟨e, he, hk⟩ := List.mem_map.mp hin
  exact (mem_mapDelete.mp he).2 hk

theorem KeysNodup_applyOp (m : memory) (op : Op) (h : KeysNodup m) :
    KeysNodup (applyOp m op).1 := by
  cases op with
  | create c p =>
    show KeysNodup (CreatePrefix m c p).m
    cases hg : mapGet m.prefixes (p.Cidr ++ "@" ++ p.Namespace) with
    | some old => rw [CreatePrefix_of_present m c p old hg]; exact h
    | none => rw [CreatePrefix_of_absent m c p hg]; exact nodup_keys_mapSet _ _ _ h
  | read c cidr ns =>
    show KeysNodup (ReadPrefix m c cidr ns).m
    rw [ReadPrefix_m]
    exact h
  | readPrefixes c ns => exact h
  | deleteAll c => exact List.nodup_nil
  | readAll c => exact h
  | readAllCidrs c ns => exact h
  | update c p =>
    show KeysNodup (UpdatePrefix m c p).m
    rcases UpdatePrefix_m_cases m c p with ⟨_, hm⟩ | ⟨_, _, old, _, _, hm⟩
    · rw [hm]; exact h
    · rw [hm]; exact nodup_keys_mapSet _ _ _ h
  | delete c p => exact nodup_keys_mapDelete _ _ h

/-- In every reachable store no key occurs twice. -/
theorem Reachable.keysNodup {m : memory} (h : Reachable m) : KeysNodup m := by
  induction h with
  | init => exact List.nodup_nil
  | step m op _ ih => exact KeysNodup_applyOp m op ih

/-- In a store with consistent keys that occur once, a record is among the
values exactly when the lookup under its own key finds it. -/
theorem mem_storedRecords_iff (m : memory) (hk : KeysConsistent m) (hn : KeysNodup m)
    (p : Prefix) :
    p ∈ storedRecords m ↔ mapGet m.prefixes (p.Cidr ++ "@" ++ p.Namespace) = some p := by
  constructor
  · intro hp
    obtain ⟨e, he, rfl⟩ := List.mem_map.mp hp
    apply mapGet_of_mem hn
    have := hk e he
    rw [← this]
    exact he
  · intro hg
    exact List.mem_map.mpr ⟨_, mem_of_mapGet hg, rfl⟩

/-- In a store with consistent keys that occur once, no record is stored
twice. -/
theorem storedRecords_nodup (m : memory) (hk : KeysConsistent m) (hn : KeysNodup m) :
    (storedRecords m).Nodup := by
  unfold storedRecords
  have hl : m.prefixes.Nodup := List.Nodup.of_map Prod.fst hn
  refine List.Nodup.map_on ?_ hl
  intro x hx y hy hxy
  have h1 := hk x hx
  have h2 := hk y hy
  exact Prod.ext (by rw [h1, h2, hxy]) hxy

/-! ## Error values -/

/-- Claim C11, amended: the error `UpdatePrefix` returns for a version mismatch
is built with `%w` around `ErrOptimisticLockError`, so `errors.Is` tells it
apart from every other error of the store; the error `CreatePrefix` returns for
a key already present and the errors `ReadPrefix` and `UpdatePrefix` return for
a missing key or an empty cidr are plain `fmt.Errorf` values that wrap nothing:
they differ from one another in their text only. -/
theorem error_kinds (m : memory) (c c2 c3 : Context) (p : Prefix) (cidr ns : String) :
    (∀ e, (CreatePrefix m c p).err = some e →
      e = Errorf "prefix already created:%v" [FmtArg.v p] ∧ e.wrapped = none) ∧
    (∀ e, (ReadPrefix m c2 cidr ns).err = some e →
      e = Errorf "prefix %s not found" [FmtArg.s cidr] ∧ e.wrapped = none) ∧
    (∀ e, (UpdatePrefix m c3 p).err = some e →
      ((p.Cidr ≠ "" ∧ ∃ old, mapGet m.prefixes (p.Cidr ++ "@" ++ p.Namespace) = some old ∧
            old.version ≠ p.version) →
          e = Errorf "%w: unable to update prefix:%s"
            [FmtArg.w SentinelError.ErrOptimisticLockError, FmtArg.s p.Cidr] ∧
          errorsIs e SentinelError.ErrOptimisticLockError = true) ∧
      (¬ (p.Cidr ≠ "" ∧ ∃ old, mapGet m.prefixes (p.Cidr ++ "@" ++ p.Namespace) = some old ∧
            old.version ≠ p.version) →
          (e = Errorf "prefix not present:%v" [FmtArg.v { p with version := p.version + 1 }] ∨
            e = Errorf "prefix not found:%s" [FmtArg.s p.Cidr]) ∧
          e.wrapped = none ∧
          errorsIs e SentinelError.ErrOptimisticLockError = false)) := by
  refine ⟨?_, ?_, ?_⟩
  · intro e he
    cases hg : mapGet m.prefixes (p.Cidr ++ "@" ++ p.Namespace) with
    | none =>
      rw [CreatePrefix_of_absent m c p hg] at he
      exact Option.noConfusion he
    | some old =>
      rw [CreatePrefix_of_present m c p old hg] at he
      have := Option.some.inj he
      subst this
      exact ⟨rfl, rfl⟩
  · intro e he
    cases hg : mapGet m.prefixes (cidr ++ "@" ++ ns) with
    | none =>
      rw [ReadPrefix_of_absent m c2 cidr ns hg] at he
      have := Option.some.inj he
      subst this
      exact ⟨rfl, rfl⟩
    | some old =>
      rw [ReadPrefix_of_present m c2 cidr ns old hg] at he
      exact Option.noConfusion he
  · intro e he
    by_cases hc : p.Cidr = ""
    · rw [UpdatePrefix_of_empty_cidr m c3 p hc] at he
      have := Option.some.inj he
      subst this
      exact ⟨fun h => absurd hc h.1, fun _ => ⟨Or.inl rfl, rfl, rfl⟩⟩
    · cases hg : mapGet m.prefixes (p.Cidr ++ "@" ++ p.Namespace) with
      | none =>
        rw [UpdatePrefix_of_absent m c3 p hc hg] at he
        have := Option.some.inj he
        subst this
        refine ⟨?_, fun _ => ⟨Or.inr rfl, rfl, rfl⟩⟩
        rintro ⟨_, old, hold, _⟩
        exact Option.noConfusion hold
      | some old =>
        by_cases hv : old.version = p.version
        · rw [UpdatePrefix_of_match m c3 p old hc hg hv] at he
          exact Option.noConfusion he
        · rw [UpdatePrefix_of_conflict m c3 p old hc hg hv] at he
          have := Option.some.inj he
          subst this
          refine ⟨fun _ => ⟨rfl, rfl⟩, ?_⟩
          intro hno
          exact absurd ⟨hc, old, rfl, hv⟩ hno

/-- Claim C11 fails as stated: the error of `CreatePrefix` for a key already
present and the error of `ReadPrefix` for a missing key both wrap nothing, and
`errors.Is` answers the same for both against every sentinel; only their text
differs. -/
theorem already_exists_and_not_found_differ_in_text_only :
    (CreatePrefix storeA Context.background sampleA).err =
      some (Errorf "prefix already created:%v" [FmtArg.v sampleA]) ∧
    (ReadPrefix NewMemory Context.background "10.0.0.0/8" "a").err =
      some (Errorf "prefix %s not found" [FmtArg.s "10.0.0.0/8"]) ∧
    (Errorf "prefix already created:%v" [FmtArg.v sampleA]).wrapped = none ∧
    (Errorf "prefix %s not found" [FmtArg.s "10.0.0.0/8"]).wrapped = none ∧
    (∀ target : SentinelError,
      errorsIs (Errorf "prefix already created:%v" [FmtArg.v sampleA]) target =
        errorsIs (Errorf "prefix %s not found" [FmtArg.s "10.0.0.0/8"]) target) :=
  ⟨by decide, by decide, by decide, by decide, fun _ => rfl⟩

/-! ## Contexts -/

/-- An error that wraps nothing, or wraps `ErrOptimisticLockError`, is not a
cancellation error. -/
theorem isCancellation_eq_false (e : GoError)
    (h : e.wrapped = none ∨ e.wrapped = some SentinelError.ErrOptimisticLockError) :
    isCancellation e = false := by
  rcases h with h | h <;> simp [isCancellation, errorsIs, h]

/-- An error built with `%w` around `context.Canceled` is a cancellation
error. -/
theorem isCancellation_of_wrapped_canceled (format : String) (rest : List FmtArg) :
    isCancellation (Errorf format (FmtArg.w SentinelError.Canceled :: rest)) = true := by
  simp [isCancellation, errorsIs, Errorf]

theorem CreatePrefix_err_wrapped (m : memory) (c : Context) (p : Prefix) (e : GoError)
    (he : (CreatePrefix m c p).err = some e) : e.wrapped = none := by
  cases hg : mapGet m.prefixes (p.Cidr ++ "@" ++ p.Namespace) with
  | none =>
    rw [CreatePrefix_of_absent m c p hg] at he
    exact Option.noConfusion he
  | some old =>
    rw [CreatePrefix_of_present m c p old hg] at he
    rw [← Option.some.inj he]
    rfl

theorem ReadPrefix_err_wrapped (m : memory) (c : Context) (cidr ns : String) (e : GoError)
    (he : (ReadPrefix m c cidr ns).err = some e) : e.wrapped = none := by
  cases hg : mapGet m.prefixes (cidr ++ "@" ++ ns) with
  | none =>
    rw [ReadPrefix_of_absent m c cidr ns hg] at he
    rw [← Option.some.inj he]
    rfl
  | some old =>
    rw [ReadPrefix_of_present m c cidr ns old hg] at he
    exact Option.noConfusion he

theorem UpdatePrefix_err_wrapped (m : memory) (c : Context) (p : Prefix) (e : GoError)
    (he : (UpdatePrefix m c p).err = some e) :
    e.wrapped = none ∨ e.wrapped = some SentinelError.ErrOptimisticLockError := by
  by_cases hc : p.Cidr = ""
  · rw [UpdatePrefix_of_empty_cidr m c p hc] at he
    rw [← Option.some.inj he]
    exact Or.inl rfl
  · cases hg : mapGet m.prefixes (p.Cidr ++ "@" ++ p.Namespace) with
    | none =>
      rw [UpdatePrefix_of_absent m c p hc hg] at he
      rw [← Option.some.inj he]
      exact Or.inl rfl
    | some old =>
      by_cases hv : old.version = p.version
      · rw [UpdatePrefix_of_match m c p old hc hg hv] at he
        exact Option.noConfusion he
      · rw [UpdatePrefix_of_conflict m c p old hc hg hv] at he
        rw [← Option.some.inj he]
        exact Or.inr rfl

/-- Claim C12, amended: the in-memory methods do not consult the context they
receive.  For every store and arguments each of the eight methods leaves the
same store and returns the same value and error whatever the context is, live
or already canceled; and no error a method returns, under any context, is a
cancellation error: `CreatePrefix`, `ReadPrefix` and `UpdatePrefix` return
errors in which `errors.Is` finds neither `context.Canceled` nor
`context.DeadlineExceeded`, and the five other methods return no error at
all. -/
theorem context_is_ignored (m : memory) (c c2 : Context) (p : Prefix) (cidr ns : String) :
    (CreatePrefix m c p = CreatePrefix m c2 p ∧
      ReadPrefix m c cidr ns = ReadPrefix m c2 cidr ns ∧
      ReadPrefixes m c ns = ReadPrefixes m c2 ns ∧
      ReadAllPrefixes m c = ReadAllPrefixes m c2 ∧
      ReadAllPrefixCidrs m c ns = ReadAllPrefixCidrs m c2 ns ∧
      UpdatePrefix m c p = UpdatePrefix m c2 p ∧
      DeletePrefix m c p = DeletePrefix m c2 p ∧
      DeleteAllPrefixes m c = DeleteAllPrefixes m c2) ∧
    (∀ e, (CreatePrefix m c p).err = some e → isCancellation e = false) ∧
    (∀ e, (ReadPrefix m c cidr ns).err = some e → isCancellation e = false) ∧
    (∀ e, (UpdatePrefix m c p).err = some e → isCancellation e = false) ∧
    (ReadPrefixes m c ns).err = none ∧
    (ReadAllPrefixes m c).err = none ∧
    (ReadAllPrefixCidrs m c ns).err = none ∧
    (DeletePrefix m c p).err = none ∧
    (DeleteAllPrefixes m c).err = none := by
  refine ⟨⟨rfl, rfl, rfl, rfl, rfl, rfl, rfl, rfl⟩, ?_, ?_, ?_, rfl, rfl, rfl, rfl, rfl⟩
  · intro e he
    exact isCancellation_eq_false e (Or.inl (CreatePrefix_err_wrapped m c p e he))
  · intro e he
    exact isCancellation_eq_false e (Or.inl (ReadPrefix_err_wrapped m c cidr ns e he))
  · intro e he
    exact isCancellation_eq_false e (UpdatePrefix_err_wrapped m c p e he)

/-- Claim C12 fails as stated: with a context that is already canceled,
`CreatePrefix` on a new store returns no error, returns the record and stores
it; and `DeleteAllPrefixes` on the store holding `sampleA` returns no error and
empties the store. -/
theorem canceled_context_proceeds :
    canceledCtx.canceled = true ∧
    (CreatePrefix NewMemory canceledCtx sampleA).err = none ∧
    (CreatePrefix NewMemory canceledCtx sampleA).val = sampleA ∧
    (CreatePrefix NewMemory canceledCtx sampleA).m ≠ NewMemory ∧
    (DeleteAllPrefixes storeA canceledCtx).err = none ∧
    (DeleteAllPrefixes storeA canceledCtx).m ≠ storeA := by
  decide

/-! ## Version at creation -/

/-- Claim C13, amended: when `CreatePrefix(r)` succeeds, the record stored
under the key of `r` is `r` itself, with the version `r` carried on input, and
the record returned carries that same version. -/
theorem CreatePrefix_keeps_version (m : memory) (c c2 : Context) (r : Prefix)
    (h : (CreatePrefix m c r).err = none) :
    mapGet (CreatePrefix m c r).m.prefixes (r.Cidr ++ "@" ++ r.Namespace) = some r ∧
    (ReadPrefix (CreatePrefix m c r).m c2 r.Cidr r.Namespace).err = none ∧
    (ReadPrefix (CreatePrefix m c r).m c2 r.Cidr r.Namespace).val.version = r.version ∧
    (CreatePrefix m c r).val.version = r.version := by
  cases hg : mapGet m.prefixes (r.Cidr ++ "@" ++ r.Namespace) with
  | some old =>
    rw [CreatePrefix_of_present m c r old hg] at h
    exact Option.noConfusion h
  | none =>
    rw [CreatePrefix_of_absent m c r hg]
    have hg2 := mapGet_mapSet_self m.prefixes (r.Cidr ++ "@" ++ r.Namespace) r
    dsimp only
    rw [ReadPrefix_of_present ⟨mapSet m.prefixes _ _⟩ c2 r.Cidr r.Namespace _ hg2]
    exact ⟨hg2, rfl, rfl, rfl⟩

/-- Claim C13 fails as stated: the record `sampleA`, created, updated five
times and read back, carries version 5; after it is deleted and created again
from the record read back, the store holds it with version 5, not 0. -/
theorem recreated_record_keeps_version :
    readBack5.version = 5 ∧
    (CreatePrefix
      (DeletePrefix (updateTimes 5 storeA sampleA).1 Context.background readBack5).m
      Context.background readBack5).err = none ∧
    (ReadPrefix storeRecreated Context.background "10.0.0.0/8" "a").err = none ∧
    (ReadPrefix storeRecreated Context.background "10.0.0.0/8" "a").val.version = 5 := by
  decide

/-! ## The suffix test on separator-free namespaces -/

theorem TrimSuffix_key (cidr ns : String) :
    TrimSuffix (cidr ++ "@" ++ ns) ("@" ++ ns) = cidr := by
  unfold TrimSuffix
  rw [if_pos (HasSuffix_key_self cidr ns), key_data]
  have hs : ("@" ++ ns).data = '@' :: ns.data := by simp [String.data_append]
  rw [hs]
  have hl : (cidr.data ++ '@' :: ns.data).length - ('@' :: ns.data).length = cidr.data.length := by
    simp
  rw [hl, List.take_left' rfl]

theorem ReadAllPrefixCidrs_val (m : memory) (c : Context) (ns : String) :
    (ReadAllPrefixCidrs m c ns).val =
      (m.prefixes.filter (fun kv => HasSuffix kv.1 ("@" ++ ns))).map
        (fun kv => TrimSuffix kv.1 ("@" ++ ns)) := by
  simp only [ReadAllPrefixCidrs]
  rw [@foldl_append_filter (String × Prefix) String (fun kv => HasSuffix kv.1 ("@" ++ ns))
    (fun kv => TrimSuffix kv.1 ("@" ++ ns)) m.prefixes []]
  simp

/-- With consistent keys and separator-free namespaces, an entry passes the
suffix test for `ns` exactly when its record has namespace `ns`. -/
theorem suffix_test_iff (m : memory) (hk : KeysConsistent m)
    (hs : ∀ p ∈ storedRecords m, SepFree p.Namespace) (ns : String) (hns : SepFree ns)
    (e : String × Prefix) (he : e ∈ m.prefixes) :
    HasSuffix e.1 ("@" ++ ns) = true ↔ e.2.Namespace = ns := by
  have hse : SepFree e.2.Namespace := hs e.2 (List.mem_map.mpr ⟨e, he, rfl⟩)
  have hiff := HasSuffix_key_iff e.2.Cidr e.2.Namespace ns hse hns
  rw [← hk e he] at hiff
  exact hiff

theorem filter_suffix_eq (m : memory) (hk : KeysConsistent m)
    (hs : ∀ p ∈ storedRecords m, SepFree p.Namespace) (ns : String) (hns : SepFree ns) :
    m.prefixes.filter (fun kv => HasSuffix kv.1 ("@" ++ ns)) =
      m.prefixes.filter (fun kv => decide (kv.2.Namespace = ns)) := by
  apply List.filter_congr
  intro e he
  have hiff := suffix_test_iff m hk hs ns hns e he
  by_cases hn : e.2.Namespace = ns
  · simp [hn, hiff.mpr hn]
  · have : HasSuffix e.1 ("@" ++ ns) = false := by
      cases hh : HasSuffix e.1 ("@" ++ ns) with
      | false => rfl
      | true => exact absurd (hiff.mp hh) hn
    simp [hn, this]

/-- Claim C14: on a reachable store whose stored namespaces are free of the
separator `@`, and for a namespace `ns` free of it, `ReadAllPrefixCidrs(ns)`
returns no error and returns, up to order, the cidr field of each stored record
of namespace `ns`, one entry per record, whatever the cidrs contain. -/
theorem ReadAllPrefixCidrs_returns_cidrs (m : memory) (hr : Reachable m)
    (hs : ∀ p ∈ storedRecords m, SepFree p.Namespace) (ns : String) (hns : SepFree ns)
    (c : Context) :
    (ReadAllPrefixCidrs m c ns).err = none ∧
    (ReadAllPrefixCidrs m c ns).val.Perm
      (((storedRecords m).filter (fun p => decide (p.Namespace = ns))).map Prefix.Cidr) := by
  have hk := hr.keysConsistent
  refine ⟨rfl, ?_⟩
  rw [ReadAllPrefixCidrs_val, filter_suffix_eq m hk hs ns hns, storedRecords, List.filter_map,
    List.map_map]
  have hm : (m.prefixes.filter (fun kv => decide (kv.2.Namespace = ns))).map
        (fun kv => TrimSuffix kv.1 ("@" ++ ns)) =
      (m.prefixes.filter ((fun p : Prefix => decide (p.Namespace = ns)) ∘ Prod.snd)).map
        (Prefix.Cidr ∘ Prod.snd) := by
    apply List.map_congr_left
    intro e he
    obtain ⟨hin, hdec⟩ := List.mem_filter.mp he
    have hn : e.2.Namespace = ns := of_decide_eq_true hdec
    rw [hk e hin, hn]
    exact TrimSuffix_key _ _
  rw [hm]

/-- Claim C20: on a reachable store whose stored namespaces are free of the
separator `@`, and for a namespace `ns` free of it, the test
`strings.HasSuffix(key, "@"+ns)` holds for a stored entry exactly when the
namespace of its record is `ns`, whatever the cidrs contain; so
`ReadPrefixes(ns)` returns no error and returns, up to order, the stored
records of namespace `ns`. -/
theorem suffix_filter_exact (m : memory) (hr : Reachable m)
    (hs : ∀ p ∈ storedRecords m, SepFree p.Namespace) (ns : String) (hns : SepFree ns)
    (c : Context) :
    (∀ e ∈ m.prefixes, HasSuffix e.1 ("@" ++ ns) = true ↔ e.2.Namespace = ns) ∧
    (ReadPrefixes m c ns).err = none ∧
    (ReadPrefixes m c ns).val.Perm
      ((storedRecords m).filter (fun p => decide (p.Namespace = ns))) ∧
    (∀ p, p ∈ (ReadPrefixes m c ns).val ↔ p ∈ storedRecords m ∧ p.Namespace = ns) := by
  have hk := hr.keysConsistent
  have hval : (ReadPrefixes m c ns).val =
      (storedRecords m).filter (fun p => decide (p.Namespace = ns)) := by
    rw [ReadPrefixes_val, filter_suffix_eq m hk hs ns hns, storedRecords, List.filter_map]
    rfl
  refine ⟨fun e he => suffix_test_iff m hk hs ns hns e he, rfl, ?_, ?_⟩
  · rw [hval]
  · intro p
    rw [hval, List.mem_filter, decide_eq_true_iff]

/-! ## Reading everything -/

/-- Claim C15: on a reachable store `ReadAllPrefixes` returns no error and
returns every stored record exactly once: a record is in the result exactly
when `ReadPrefix` of its cidr and namespace succeeds and returns it, no record
occurs twice, the result is as long as the map has entries, and every record
`ReadPrefixes(ns)` returns, for any `ns`, is in it. -/
theorem ReadAllPrefixes_covers (m : memory) (hr : Reachable m) (c c2 c3 : Context) :
    (ReadAllPrefixes m c).err = none ∧
    (∀ p, p ∈ (ReadAllPrefixes m c).val ↔
      ((ReadPrefix m c2 p.Cidr p.Namespace).err = none ∧
        (ReadPrefix m c2 p.Cidr p.Namespace).val = p)) ∧
    (ReadAllPrefixes m c).val.Nodup ∧
    (ReadAllPrefixes m c).val.length = m.prefixes.length ∧
    (ReadAllPrefixes m c).val.Perm (storedRecords m) ∧
    (∀ ns p, p ∈ (ReadPrefixes m c3 ns).val → p ∈ (ReadAllPrefixes m c).val) := by
  have hk := hr.keysConsistent
  have hn := hr.keysNodup
  rw [ReadAllPrefixes_val]
  refine ⟨rfl, ?_, storedRecords_nodup m hk hn, ?_, List.Perm.refl _, ?_⟩
  · intro p
    rw [mem_storedRecords_iff m hk hn p]
    constructor
    · intro hg
      rw [ReadPrefix_of_present m c2 _ _ p hg]
      exact ⟨rfl, rfl⟩
    · rintro ⟨herr, hval⟩
      obtain ⟨old, hg⟩ := (ReadPrefix_err_eq_none_iff m c2 _ _).mp herr
      rw [ReadPrefix_of_present m c2 _ _ old hg] at hval
      dsimp only at hval
      rw [hg, hval]
  · simp [storedRecords]
  · intro ns p hp
    rw [ReadPrefixes_val] at hp
    obtain ⟨e, he, rfl⟩ := List.mem_map.mp hp
    exact List.mem_map.mpr ⟨e, (List.mem_filter.mp he).1, rfl⟩

/-! ## Locks -/

/-- Claim C17, evaluated on the code: `CreatePrefix`, `UpdatePrefix` and
`DeletePrefix` open with `m.lock.Lock()` and the four read methods with
`m.lock.RLock()`, but `DeleteAllPrefixes` opens with `m.lock.RLock()` as well
and, holding only that shared lock, replaces the map: on the store holding
`sampleA` it leaves a different store. -/
theorem DeleteAllPrefixes_writes_under_shared_lock :
    lockMode (Op.create Context.background sampleA) = LockMode.exclusive ∧
    lockMode (Op.update Context.background sampleA) = LockMode.exclusive ∧
    lockMode (Op.delete Context.background sampleA) = LockMode.exclusive ∧
    lockMode (Op.read Context.background "10.0.0.0/8" "a") = LockMode.shared ∧
    lockMode (Op.readPrefixes Context.background "a") = LockMode.shared ∧
    lockMode (Op.readAll Context.background) = LockMode.shared ∧
    lockMode (Op.readAllCidrs Context.background "a") = LockMode.shared ∧
    lockMode (Op.deleteAll Context.background) = LockMode.shared ∧
    (applyOp storeA (Op.deleteAll Context.background)).1 ≠ storeA := by
  decide

/-! ## The invariant of the map -/

/-- Claim C18: in every store reachable from `NewMemory` each entry of the map
sits under the key `Cidr + "@" + Namespace` of its own record; the new store
satisfies this, and `CreatePrefix`, `UpdatePrefix`, `DeletePrefix` and
`DeleteAllPrefixes` each preserve it, whether they succeed or fail. -/
theorem keys_consistent_invariant (m : memory) (c : Context) (p : Prefix) :
    (Reachable m → ∀ k v, (k, v) ∈ m.prefixes → k = v.Cidr ++ "@" ++ v.Namespace) ∧
    KeysConsistent NewMemory ∧
    (KeysConsistent m → KeysConsistent (CreatePrefix m c p).m) ∧
    (KeysConsistent m → KeysConsistent (UpdatePrefix m c p).m) ∧
    (KeysConsistent m → KeysConsistent (DeletePrefix m c p).m) ∧
    (KeysConsistent m → KeysConsistent (DeleteAllPrefixes m c).m) := by
  refine ⟨?_, ?_, KeysConsistent_CreatePrefix m c p, KeysConsistent_UpdatePrefix m c p,
    KeysConsistent_DeletePrefix m c p, ?_⟩
  · intro hr k v hkv
    exact hr.keysConsistent (k, v) hkv
  · intro e he
    simp [NewMemory] at he
  · intro _ e he
    simp [DeleteAllPrefixes] at he

/-! ## Failed writes and reads leave the store alone -/

/-- Claim C19: whenever `CreatePrefix` or `UpdatePrefix` returns an error, the
store is exactly what it was before the call and the record returned with the
error is the zero record; and `ReadPrefix`, `ReadPrefixes`, `ReadAllPrefixes`
and `ReadAllPrefixCidrs` never change the store. -/
theorem failed_writes_and_reads_keep_store (m : memory) (c : Context) (p : Prefix)
    (cidr ns : String) :
    ((CreatePrefix m c p).err ≠ none →
      (CreatePrefix m c p).m = m ∧ (CreatePrefix m c p).val = Prefix.zero) ∧
    ((UpdatePrefix m c p).err ≠ none →
      (UpdatePrefix m c p).m = m ∧ (UpdatePrefix m c p).val = Prefix.zero) ∧
    (ReadPrefix m c cidr ns).m = m ∧
    (ReadPrefixes m c ns).m = m ∧
    (ReadAllPrefixes m c).m = m ∧
    (ReadAllPrefixCidrs m c ns).m = m := by
  refine ⟨?_, ?_, ReadPrefix_m m c cidr ns, rfl, rfl, rfl⟩
  · intro h
    cases hg : mapGet m.prefixes (p.Cidr ++ "@" ++ p.Namespace) with
    | none =>
      rw [CreatePrefix_of_absent m c p hg] at h
      exact absurd rfl h
    | some old =>
      rw [CreatePrefix_of_present m c p old hg]
      exact ⟨rfl, rfl⟩
  · intro h
    by_cases hc : p.Cidr = ""
    · rw [UpdatePrefix_of_empty_cidr m c p hc]
      exact ⟨rfl, rfl⟩
    · cases hg : mapGet m.prefixes (p.Cidr ++ "@" ++ p.Namespace) with
      | none =>
        rw [UpdatePrefix_of_absent m c p hc hg]
        exact ⟨rfl, rfl⟩
      | some old =>
        by_cases hv : old.version = p.version
        · rw [UpdatePrefix_of_match m c p old hc hg hv] at h
          exact absurd rfl h
        · rw [UpdatePrefix_of_conflict m c p old hc hg hv]
          exact ⟨rfl, rfl⟩

/-! ## Further statements at concrete stores -/

/-- `error_kinds` on the store holding `sampleA` at version 0: an update that
carries version 3 gets the error wrapping `ErrOptimisticLockError`, a second
creation gets an error that wraps nothing. -/
theorem error_kinds_witness :
    (UpdatePrefix storeA Context.background { sampleA with version := 3 }).err =
      some (Errorf "%w: unable to update prefix:%s"
        [FmtArg.w SentinelError.ErrOptimisticLockError, FmtArg.s "10.0.0.0/8"]) ∧
    errorsIs (Errorf "%w: unable to update prefix:%s"
        [FmtArg.w SentinelError.ErrOptimisticLockError, FmtArg.s "10.0.0.0/8"])
      SentinelError.ErrOptimisticLockError = true ∧
    (CreatePrefix storeA Context.background { sampleA with version := 3 }).err =
      some (Errorf "prefix already created:%v" [FmtArg.v { sampleA with version := 3 }]) ∧
    (Errorf "prefix already created:%v"
      [FmtArg.v { sampleA with version := 3 }]).wrapped = none :=
  ⟨by decide,
    (((error_kinds storeA Context.background Context.background Context.background
      { sampleA with version := 3 } "10.0.0.0/8" "a").2.2 _ (by decide)).1
        ⟨by decide, sampleA, by decide, by decide⟩).2,
    by decide,
    ((error_kinds storeA Context.background Context.background Context.background
      { sampleA with version := 3 } "10.0.0.0/8" "a").1 _ (by decide)).2⟩

/-- `CreatePrefix_keeps_version` on a new store, for a record that carries
version 5. -/
theorem CreatePrefix_keeps_version_witness :
    (CreatePrefix NewMemory Context.background { sampleA with version := 5 }).err = none ∧
    (ReadPrefix (CreatePrefix NewMemory Context.background { sampleA with version := 5 }).m
      Context.background "10.0.0.0/8" "a").val.version = 5 :=
  ⟨by decide,
    (CreatePrefix_keeps_version NewMemory Context.background Context.background
      { sampleA with version := 5 } (by decide)).2.2.1⟩

/-- `ReadAllPrefixCidrs_returns_cidrs` on the store holding the cidr
`10.0.0.0/8@x` in namespace `y`. -/
theorem ReadAllPrefixCidrs_returns_cidrs_witness :
    Reachable storeCidrSep ∧
    (∀ p ∈ storedRecords storeCidrSep, SepFree p.Namespace) ∧ SepFree "y" ∧
    (ReadAllPrefixCidrs storeCidrSep Context.background "y").val.Perm
      (((storedRecords storeCidrSep).filter (fun p => decide (p.Namespace = "y"))).map
        Prefix.Cidr) :=
  have hr : Reachable storeCidrSep :=
    Reachable.step NewMemory (Op.create Context.background collideA) Reachable.init
  ⟨hr, by decide, by decide,
    (ReadAllPrefixCidrs_returns_cidrs storeCidrSep hr (by decide) "y" (by decide)
      Context.background).2⟩

/-- `suffix_filter_exact` on the store holding the cidr `10.0.0.0/8@x` in
namespace `y`. -/
theorem suffix_filter_exact_witness :
    Reachable storeCidrSep ∧
    (∀ p ∈ storedRecords storeCidrSep, SepFree p.Namespace) ∧ SepFree "y" ∧
    (ReadPrefixes storeCidrSep Context.background "y").val.Perm
      ((storedRecords storeCidrSep).filter (fun p => decide (p.Namespace = "y"))) :=
  have hr : Reachable storeCidrSep :=
    Reachable.step NewMemory (Op.create Context.background collideA) Reachable.init
  ⟨hr, by decide, by decide,
    (suffix_filter_exact storeCidrSep hr (by decide) "y" (by decide)
      Context.background).2.2.1⟩

/-- `ReadAllPrefixes_covers` on the store holding `sampleA` and `sampleB`. -/
theorem ReadAllPrefixes_covers_witness :
    Reachable storeAB ∧
    sampleA ∈ (ReadAllPrefixes storeAB Context.background).val ∧
    (ReadAllPrefixes storeAB Context.background).val.length = storeAB.prefixes.length :=
  have hr : Reachable storeAB :=
    Reachable.step storeA (Op.create Context.background sampleB)
      (Reachable.step NewMemory (Op.create Context.background sampleA) Reachable.init)
  ⟨hr,
    ((ReadAllPrefixes_covers storeAB hr Context.background Context.background
      Context.background).2.1 sampleA).mpr ⟨by decide, by decide⟩,
    (ReadAllPrefixes_covers storeAB hr Context.background Context.background
      Context.background).2.2.2.1⟩

/-- `keys_consistent_invariant` on the store holding `sampleA` and
`sampleB`. -/
theorem keys_consistent_invariant_witness :
    Reachable storeAB ∧
    ("10.0.0.0/8@a", sampleA) ∈ storeAB.prefixes ∧
    "10.0.0.0/8@a" = sampleA.Cidr ++ "@" ++ sampleA.Namespace ∧
    KeysConsistent storeAB ∧
    KeysConsistent (UpdatePrefix storeAB Context.background sampleB).m :=
  have hr : Reachable storeAB :=
    Reachable.step storeA (Op.create Context.background sampleB)
      (Reachable.step NewMemory (Op.create Context.background sampleA) Reachable.init)
  ⟨hr, by decide,
    (keys_consistent_invariant storeAB Context.background sampleB).1 hr _ _ (by decide),
    by decide,
    (keys_consistent_invariant storeAB Context.background sampleB).2.2.2.1 (by decide)⟩

/-- `failed_writes_and_reads_keep_store` on the store holding `sampleA`: the
refused second creation and the refused update with a stale version. -/
theorem failed_writes_and_reads_keep_store_witness :
    ((CreatePrefix storeA Context.background { sampleA with version := 3 }).err ≠ none ∧
      (CreatePrefix storeA Context.background { sampleA with version := 3 }).m = storeA) ∧
    ((UpdatePrefix storeA Context.background { sampleA with version := 3 }).err ≠ none ∧
      (UpdatePrefix storeA Context.background { sampleA with version := 3 }).m = storeA) :=
  ⟨⟨by decide,
      ((failed_writes_and_reads_keep_store storeA Context.background
        { sampleA with version := 3 } "10.0.0.0/8" "a").1 (by decide)).1⟩,
    ⟨by decide,
      ((failed_writes_and_reads_keep_store storeA Context.background
        { sampleA with version := 3 } "10.0.0.0/8" "a").2.1 (by decide)).1⟩⟩

/-- `context_is_ignored` on the store holding `sampleA`, under a context that is
already canceled: the second creation and the update with a stale version
return their usual errors, neither of which is a cancellation error, and the
deletion goes through. -/
theorem context_is_ignored_witness :
    canceledCtx.canceled = true ∧
    (CreatePrefix storeA canceledCtx { sampleA with version := 3 }).err =
      some (Errorf "prefix already created:%v" [FmtArg.v { sampleA with version := 3 }]) ∧
    isCancellation (Errorf "prefix already created:%v"
      [FmtArg.v { sampleA with version := 3 }]) = false ∧
    (UpdatePrefix storeA canceledCtx { sampleA with version := 3 }).err =
      some (Errorf "%w: unable to update prefix:%s"
        [FmtArg.w SentinelError.ErrOptimisticLockError, FmtArg.s "10.0.0.0/8"]) ∧
    isCancellation (Errorf "%w: unable to update prefix:%s"
      [FmtArg.w SentinelError.ErrOptimisticLockError, FmtArg.s "10.0.0.0/8"]) = false ∧
    DeletePrefix storeA canceledCtx sampleA = DeletePrefix storeA Context.background sampleA ∧
    (DeletePrefix storeA canceledCtx sampleA).err = none :=
  ⟨by decide, by decide,
    (context_is_ignored storeA canceledCtx Context.background { sampleA with version := 3 }
      "10.0.0.0/8" "a").2.1 _ (by decide),
    by decide,
    (context_is_ignored storeA canceledCtx Context.background { sampleA with version := 3 }
      "10.0.0.0/8" "a").2.2.2.1 _ (by decide),
    (context_is_ignored storeA canceledCtx Context.background sampleA
      "10.0.0.0/8" "a").1.2.2.2.2.2.2.1,
    (context_is_ignored storeA canceledCtx Context.background sampleA
      "10.0.0.0/8" "a").2.2.2.2.2.2.2.1⟩

end Ipam
